import Mathlib

/-!
# Verification of `mp_creator.cpp` (motion_path_creator)

A shallow embedding of the `mpCreator` node: its three callbacks
(`scanCallback`, `odomCallback`, `robotPOSCallback`), the two geometric helpers
(`distanceToPoint`, `angleToPoint`) and the two sort comparators.

Numbers.  The source computes in `float`/`double`.  The embedding is generic in
the number type `F`: a definition asks only for the operations it applies
(`+`, `-`, `*`, `/`, `^`, `<=`, a literal) and for the `math.h` functions
(`Math F`), and assumes no law of them, so it is an ordinary computable function
once `F` and the functions are chosen, and rounding arithmetic is one such
choice.  Facts that need arithmetic laws are proved for the real numbers
(`realMath`), that is, for exact arithmetic without rounding, infinities or NaN;
the sign of a zero is followed separately (`SignedNum`, `signedMath`).

Library calls.  `std::sort` and `operator[]` belong to the C++ library, not to the
repository; they are modelled below after the GNU implementation (`stdSort`,
`index0`).
-/

namespace MotionPath

/-! ## Data model -/

/-- The two coordinates of `geometry_msgs::Point32` that the source reads. -/
structure Point32 (F : Type) where
  x : F
  y : F
deriving DecidableEq, Repr

/-- The incoming scan message; the source reads its member `points` (line 29). -/
structure LaserScan (F : Type) where
  points : List (Point32 F)
deriving DecidableEq, Repr

/-- The orientation quaternion of an odometry message. -/
structure Quaternion (F : Type) where
  x : F
  y : F
  z : F
  w : F
deriving DecidableEq, Repr

/-- The fields of `nav_msgs::Odometry` that `odomCallback` reads:
`pose.pose.position.{x,y}`, `pose.pose.orientation`, `twist.twist.linear.{x,y}`. -/
structure Odometry (F : Type) where
  positionX : F
  positionY : F
  orientation : Quaternion F
  linearX : F
  linearY : F
deriving DecidableEq, Repr

/-- The data members of class `mpCreator` that the callbacks read and write.
The class declaration (`mp_creator.h`) is not part of the source; the members are
the names the source uses.  `scan` is dereferenced by `robotPOSCallback`
(`*scan`, line 56) and is not set by the constructor (lines 11-17), so it is an
optional value that is empty until `scanCallback` stores a scan (line 24). -/
structure mpCreator (F : Type) where
  x : F
  y : F
  theta : F
  xVel : F
  yVel : F
  angleWeight : F
  scan : Option (LaserScan F)
deriving DecidableEq, Repr

/-- The functions and the constant of `math.h` that the source calls. -/
structure Math (F : Type) where
  sqrt : F → F
  atan2 : F → F → F
  M_PI : F

/-- Ways in which a selection can end without a published point.
`EmptyPointSet` and `NoScanAvailable` are the two error kinds that the
specification names; `undefinedBehaviour` stands for a C++ operation applied
outside its domain (`objects[0]` on an empty vector, `*scan` with no scan
stored, a read or write outside the vector inside `std::sort`), for which the
language defines no result.  `roundsExhausted` belongs to the model only: three
loops of the sort are given a bound on their number of rounds, and this value
would mark a bound that was too small; `stdSort_rounds_suffice` shows that it
never results. -/
inductive Fault where
  | EmptyPointSet
  | NoScanAvailable
  | undefinedBehaviour
  | roundsExhausted
deriving DecidableEq, Repr

/-! ## The library calls -/

section Library

variable {α : Type}

/-- Reading `v[i]`: outside the vector there is no defined value. -/
def readAt (v : List α) (i : Nat) : Except Fault α :=
  match v[i]? with
  | some a => Except.ok a
  | none => Except.error Fault.undefinedBehaviour

/-- Writing `v[i] = a`: outside the vector the store has no defined effect. -/
def writeAt (v : List α) (i : Nat) (a : α) : Except Fault (List α) :=
  if i < v.length then Except.ok (v.set i a) else Except.error Fault.undefinedBehaviour

/-- The call `std::iter_swap(v + i, v + j)`. -/
def iterSwap (v : List α) (i j : Nat) : Except Fault (List α) := do
  let a ← readAt v i
  let b ← readAt v j
  let v1 ← writeAt v i b
  writeAt v1 j a

/-- The loop of `__unguarded_linear_insert`: starting at the slot just below
`val`, every element `next` with `comp val next` is moved one slot up, and `val`
is stored below the last element moved.  The argument lists the elements below
`val` from the nearest one down to `v[0]`, and so does the result.  The loop has
no bound: when every element satisfies `comp val next` it steps below `v[0]`,
outside the vector. -/
def unguardedLinearInsert (comp : α → α → Bool) (val : α) : List α → Except Fault (List α)
  | [] => Except.error Fault.undefinedBehaviour
  | next :: below =>
    if comp val next then (unguardedLinearInsert comp val below).map (fun l => next :: l)
    else Except.ok (val :: next :: below)

/-- One round of `__insertion_sort`: `sorted` is the already sorted range
`[first, i)` and `val` is `*i`.  If `comp val *first` the whole range is moved up
and `val` becomes the first element, otherwise `val` is inserted by
`unguardedLinearInsert`. -/
def insertionSortStep (comp : α → α → Bool) (sorted : List α) (val : α) :
    Except Fault (List α) :=
  match sorted with
  | [] => Except.ok [val]
  | first :: _ =>
    if comp val first then Except.ok (val :: sorted)
    else (unguardedLinearInsert comp val sorted.reverse).map List.reverse

/-- The function `__insertion_sort(first, last, comp)`: nothing to do on an empty
range, otherwise the elements after the first are inserted one by one. -/
def insertionSort (comp : α → α → Bool) : List α → Except Fault (List α)
  | [] => Except.ok []
  | first :: rest => rest.foldlM (insertionSortStep comp) [first]

/-- The function `__unguarded_insertion_sort`: every element of `rest` is inserted
by `unguardedLinearInsert` into all that precedes it, without the test against
the first element. -/
def unguardedInsertionSort (comp : α → α → Bool) (sorted rest : List α) :
    Except Fault (List α) :=
  rest.foldlM
    (fun acc val => (unguardedLinearInsert comp val acc.reverse).map List.reverse) sorted

/-- The function `__final_insertion_sort` on the whole vector, with
`_S_threshold = 16`. -/
def finalInsertionSort (comp : α → α → Bool) (v : List α) : Except Fault (List α) :=
  if v.length > 16 then do
    let sorted ← insertionSort comp (v.take 16)
    unguardedInsertionSort comp sorted (v.drop 16)
  else insertionSort comp v

/-- The function `__move_median_to_first(result, a, b, c, comp)`. -/
def moveMedianToFirst (comp : α → α → Bool) (v : List α) (result a b c : Nat) :
    Except Fault (List α) := do
  let va ← readAt v a
  let vb ← readAt v b
  let vc ← readAt v c
  if comp va vb then
    if comp vb vc then iterSwap v result b
    else if comp va vc then iterSwap v result c
    else iterSwap v result a
  else if comp va vc then iterSwap v result a
  else if comp vb vc then iterSwap v result c
  else iterSwap v result b

/-- The loop `while (comp(first, pivot)) ++first;` of `__unguarded_partition`.
The list holds `v[first], v[first + 1], ...` up to the end of the vector; the
loop has no bound and leaves the vector when every element satisfies
`comp x pivot`. -/
def scanUp (comp : α → α → Bool) (pivot : α) : List α → Nat → Except Fault Nat
  | [], _ => Except.error Fault.undefinedBehaviour
  | x :: above, first =>
    if comp x pivot then scanUp comp pivot above (first + 1) else Except.ok first

/-- The loop `while (comp(pivot, last)) --last;` of `__unguarded_partition`,
started at index `last`; it has no bound and steps below `v[0]` when every
element satisfies `comp pivot x`. -/
def scanDown (comp : α → α → Bool) (v : List α) (pivot : α) : Nat → Except Fault Nat
  | 0 => do
    let x ← readAt v 0
    if comp pivot x then Except.error Fault.undefinedBehaviour else Except.ok 0
  | last + 1 => do
    let x ← readAt v (last + 1)
    if comp pivot x then scanDown comp v pivot last else Except.ok (last + 1)

/-- The function `__unguarded_partition(first, last, pivot, comp)`; the result is
the vector and the returned cut.  Every round of the outer loop advances `first`,
which cannot pass the end of the vector without an undefined read, so the first
argument, a bound on the number of rounds, is not used up when it starts at
`v.length + 1`. -/
def unguardedPartition (comp : α → α → Bool) (pivot : Nat) :
    Nat → List α → Nat → Nat → Except Fault (List α × Nat)
  | 0, _, _, _ => Except.error Fault.roundsExhausted
  | rounds + 1, v, first, last => do
    let p ← readAt v pivot
    let first1 ← scanUp comp p (v.drop first) first
    if last = 0 then Except.error Fault.undefinedBehaviour
    else do
      let last1 ← scanDown comp v p (last - 1)
      if first1 < last1 then do
        let v1 ← iterSwap v first1 last1
        unguardedPartition comp pivot rounds v1 (first1 + 1) last1
      else Except.ok (v, first1)

/-- The function `__unguarded_partition_pivot(first, last, comp)`. -/
def unguardedPartitionPivot (comp : α → α → Bool) (v : List α) (first last : Nat) :
    Except Fault (List α × Nat) := do
  let mid := first + (last - first) / 2
  let v1 ← moveMedianToFirst comp v first (first + 1) mid (last - 1)
  unguardedPartition comp first (v1.length + 1) v1 (first + 1) last

/-- The function `__push_heap(first, holeIndex, topIndex, value, comp)`; the hole
moves to its parent in every round, so `holeIndex + 1` rounds suffice. -/
def pushHeap (comp : α → α → Bool) (first topIndex : Nat) (value : α) :
    Nat → List α → Nat → Except Fault (List α)
  | 0, _, _ => Except.error Fault.roundsExhausted
  | rounds + 1, v, holeIndex => do
    let parent := (holeIndex - 1) / 2
    if holeIndex > topIndex then do
      let vp ← readAt v (first + parent)
      if comp vp value then do
        let v1 ← writeAt v (first + holeIndex) vp
        pushHeap comp first topIndex value rounds v1 parent
      else writeAt v (first + holeIndex) value
    else writeAt v (first + holeIndex) value

/-- The first loop of `__adjust_heap`, which moves the hole down to a leaf; the
result is the vector, the hole and `secondChild`.  The child index grows in every
round, so `len + 1` rounds suffice. -/
def adjustHeapDown (comp : α → α → Bool) (first len : Nat) :
    Nat → List α → Nat → Nat → Except Fault (List α × Nat × Nat)
  | 0, _, _, _ => Except.error Fault.roundsExhausted
  | rounds + 1, v, holeIndex, secondChild =>
    if secondChild < (len - 1) / 2 then do
      let sc := 2 * (secondChild + 1)
      let x ← readAt v (first + sc)
      let y ← readAt v (first + (sc - 1))
      let sc1 := if comp x y then sc - 1 else sc
      let z ← readAt v (first + sc1)
      let v1 ← writeAt v (first + holeIndex) z
      adjustHeapDown comp first len rounds v1 sc1 sc1
    else Except.ok (v, holeIndex, secondChild)

/-- The function `__adjust_heap(first, holeIndex, len, value, comp)`. -/
def adjustHeap (comp : α → α → Bool) (v : List α) (first holeIndex len : Nat) (value : α) :
    Except Fault (List α) := do
  let topIndex := holeIndex
  let (v1, hole1, sc1) ← adjustHeapDown comp first len (len + 1) v holeIndex holeIndex
  if len % 2 = 0 ∧ sc1 = (len - 2) / 2 then do
    let sc2 := 2 * (sc1 + 1)
    let z ← readAt v1 (first + (sc2 - 1))
    let v2 ← writeAt v1 (first + hole1) z
    pushHeap comp first topIndex value (sc2 + 1) v2 (sc2 - 1)
  else pushHeap comp first topIndex value (hole1 + 1) v1 hole1

/-- The function `__pop_heap(first, last, result, comp)`. -/
def popHeap (comp : α → α → Bool) (v : List α) (first last result : Nat) :
    Except Fault (List α) := do
  let value ← readAt v result
  let top ← readAt v first
  let v1 ← writeAt v result top
  adjustHeap comp v1 first 0 (last - first) value

/-- The loop of `__make_heap`, from `parent` down to `0`. -/
def makeHeapLoop (comp : α → α → Bool) (first len : Nat) :
    Nat → List α → Except Fault (List α)
  | 0, v => do
    let value ← readAt v first
    adjustHeap comp v first 0 len value
  | parent + 1, v => do
    let value ← readAt v (first + (parent + 1))
    let v1 ← adjustHeap comp v first (parent + 1) len value
    makeHeapLoop comp first len parent v1

/-- The function `__make_heap(first, last, comp)`. -/
def makeHeap (comp : α → α → Bool) (v : List α) (first last : Nat) : Except Fault (List α) :=
  if last - first < 2 then Except.ok v
  else makeHeapLoop comp first (last - first) ((last - first - 2) / 2) v

/-- The function `__sort_heap(first, last, comp)`, by recursion on `last`. -/
def sortHeap (comp : α → α → Bool) (first : Nat) : Nat → List α → Except Fault (List α)
  | 0, v => Except.ok v
  | last + 1, v =>
    if last + 1 - first > 1 then do
      let v1 ← popHeap comp v first last last
      sortHeap comp first last v1
    else Except.ok v

/-- The function `__heap_select(first, middle, last, comp)`. -/
def heapSelect (comp : α → α → Bool) (v : List α) (first middle last : Nat) :
    Except Fault (List α) := do
  let v1 ← makeHeap comp v first middle
  (List.range' middle (last - middle)).foldlM
    (fun acc i => do
      let x ← readAt acc i
      let top ← readAt acc first
      if comp x top then popHeap comp acc first middle i else Except.ok acc) v1

/-- The function `__partial_sort(first, middle, last, comp)`. -/
def partialSort (comp : α → α → Bool) (v : List α) (first middle last : Nat) :
    Except Fault (List α) := do
  let v1 ← heapSelect comp v first middle last
  sortHeap comp first middle v1

/-- The function `__introsort_loop(first, last, depth_limit, comp)`, with
`_S_threshold = 16`: the recursive call sorts `[cut, last)` and the next round of
the `while` loop continues on `[first, cut)`, both with the decremented depth
limit. -/
def introsortLoop (comp : α → α → Bool) :
    Nat → List α → Nat → Nat → Except Fault (List α)
  | 0, v, first, last =>
    if last - first > 16 then partialSort comp v first last last else Except.ok v
  | depthLimit + 1, v, first, last =>
    if last - first > 16 then do
      let (v1, cut) ← unguardedPartitionPivot comp v first last
      let v2 ← introsortLoop comp depthLimit v1 cut last
      introsortLoop comp depthLimit v2 first cut
    else Except.ok v

/-- The call `std::sort(begin, end, comp)`, after the GNU implementation
(`std::__sort` in `bits/stl_algo.h`): the introsort loop with depth limit
`2 * floor(log2 n)`, then the final insertion sort.  The comparator is called
exactly as that code calls it and is not assumed to be a strict weak ordering;
the loops that the implementation leaves without a bound can then leave the
vector, which ends the sort without a defined result. -/
def stdSort (comp : α → α → Bool) (objects : List α) : Except Fault (List α) :=
  if objects.length = 0 then Except.ok objects
  else do
    let v ← introsortLoop comp (Nat.log2 objects.length * 2) objects 0 objects.length
    finalInsertionSort comp v

/-- The expression `objects[0]`: the first element of the vector; on an empty
vector the access is outside the vector and has no defined result. -/
def index0 : List α → Except Fault α
  | [] => Except.error Fault.undefinedBehaviour
  | p :: _ => Except.ok p

end Library

/-! ## The node -/

section Node

variable {F : Type}

/-- Lines 68-71: `sqrt(pow(p.x - x, 2) * pow(p.y - y, 2))`. -/
def distanceToPoint [Sub F] [Mul F] [HPow F ℕ F] (m : Math F) (s : mpCreator F)
    (p : Point32 F) : F :=
  m.sqrt ((p.x - s.x) ^ 2 * (p.y - s.y) ^ 2)

/-- Lines 78-81: `(atan2(p.y - y, p.x - x) * (180.0 / M_PI)) - theta`. -/
def angleToPoint [Sub F] [Mul F] [Div F] [OfNat F 180] (m : Math F) (s : mpCreator F)
    (p : Point32 F) : F :=
  (m.atan2 (p.y - s.y) (p.x - s.x) * (180 / m.M_PI)) - s.theta

/-- Modelled from the spec: `invAngleToPoint` is called by `invObjSortComparator`
(lines 104-105) and is defined nowhere in the source.  The specification gives
the reverse cost as `distance(p) + angleWeight · (180 − angle(p))` with the same
`angle(p)` as the forward cost, so the helper returns `angleToPoint`. -/
def invAngleToPoint [Sub F] [Mul F] [Div F] [OfNat F 180] (m : Math F) (s : mpCreator F)
    (p : Point32 F) : F :=
  angleToPoint m s p

/-- The weight `distanceToPoint(p) + (angleWeight * angleToPoint(p))` that
`objSortComparator` computes for each argument (lines 91-92). -/
def forwardWeight [Add F] [Sub F] [Mul F] [Div F] [HPow F ℕ F] [OfNat F 180]
    (m : Math F) (s : mpCreator F) (p : Point32 F) : F :=
  distanceToPoint m s p + (s.angleWeight * angleToPoint m s p)

/-- The weight `distanceToPoint(p) + (angleWeight * (180 - invAngleToPoint(p)))`
that `invObjSortComparator` computes for each argument (lines 104-105). -/
def reverseWeight [Add F] [Sub F] [Mul F] [Div F] [HPow F ℕ F] [OfNat F 180]
    (m : Math F) (s : mpCreator F) (p : Point32 F) : F :=
  distanceToPoint m s p + (s.angleWeight * (180 - invAngleToPoint m s p))

/-- Lines 89-94: `aWeight <= bWeight`. -/
def objSortComparator [Add F] [Sub F] [Mul F] [Div F] [HPow F ℕ F] [OfNat F 180] [LE F]
    [DecidableRel (fun a b : F => a ≤ b)] (m : Math F) (s : mpCreator F)
    (a b : Point32 F) : Bool :=
  let aWeight := distanceToPoint m s a + (s.angleWeight * angleToPoint m s a)
  let bWeight := distanceToPoint m s b + (s.angleWeight * angleToPoint m s b)
  decide (aWeight ≤ bWeight)

/-- Lines 102-107: `aWeight <= bWeight` with the reverse weights. -/
def invObjSortComparator [Add F] [Sub F] [Mul F] [Div F] [HPow F ℕ F] [OfNat F 180] [LE F]
    [DecidableRel (fun a b : F => a ≤ b)] (m : Math F) (s : mpCreator F)
    (a b : Point32 F) : Bool :=
  let aWeight := distanceToPoint m s a + (s.angleWeight * (180 - invAngleToPoint m s a))
  let bWeight := distanceToPoint m s b + (s.angleWeight * (180 - invAngleToPoint m s b))
  decide (aWeight ≤ bWeight)

/-- Lines 22-32: store the scan, sort a copy of its points with
`objSortComparator`, publish `objects[0]`.  The result is the new state and what
is handed to `mpcPub.publish`; when the sort ends without a defined result, so
does the callback. -/
def scanCallback [Add F] [Sub F] [Mul F] [Div F] [HPow F ℕ F] [OfNat F 180] [LE F]
    [DecidableRel (fun a b : F => a ≤ b)] (m : Math F) (s : mpCreator F)
    (inp : LaserScan F) : mpCreator F × Except Fault (Point32 F) :=
  let s1 : mpCreator F := { s with scan := some inp }
  (s1, (stdSort (objSortComparator m s1) inp.points).bind index0)

/-- Lines 37-47: overwrite position, heading and velocity from the message. -/
def odomCallback [Add F] [Sub F] [Mul F] [OfNat F 2] (m : Math F) (s : mpCreator F)
    (inp : Odometry F) : mpCreator F :=
  let quat := inp.orientation
  { s with
    x := inp.positionX
    y := inp.positionY
    theta := m.atan2 (2 * ((quat.x * quat.w) + (quat.y * quat.z)))
      ((quat.x * quat.x) + (quat.y * quat.y) - (quat.z * quat.z) - (quat.w * quat.w))
    xVel := inp.linearX
    yVel := inp.linearY }

/-- Lines 52-61: project the stored scan to a point cloud (`projectLaser` is the
`laser_geometry` projector, a parameter), sort a copy of its points with
`invObjSortComparator`, publish `objects[0]`.  Dereferencing `scan` when no scan
is stored has no defined result. -/
def robotPOSCallback [Add F] [Sub F] [Mul F] [Div F] [HPow F ℕ F] [OfNat F 180] [LE F]
    [DecidableRel (fun a b : F => a ≤ b)] (m : Math F)
    (projectLaser : LaserScan F → List (Point32 F))
    (s : mpCreator F) : mpCreator F × Except Fault (Point32 F) :=
  match s.scan with
  | none => (s, Except.error Fault.undefinedBehaviour)
  | some stored =>
    let cloud := projectLaser stored
    (s, (stdSort (invObjSortComparator m s) cloud).bind index0)

end Node

/-! ## Exact arithmetic and auxiliary notions -/

section Auxiliary

/-- The `math.h` functions over the real numbers: the square root, the
two-argument arctangent (the argument of `x + i·y`, in `(-π, π]`) and `π`. -/
noncomputable def realMath : Math ℝ where
  sqrt := Real.sqrt
  atan2 := fun y x => Complex.arg ⟨x, y⟩
  M_PI := Real.pi

/-- A pose at the origin with heading `0` and `angleWeight = 1`, no scan stored. -/
def originPose : mpCreator ℝ :=
  { x := 0, y := 0, theta := 0, xVel := 0, yVel := 0, angleWeight := 1, scan := none }

/-- The projector that returns the points carried by the scan itself; one
possible `projectLaser`, used for concrete runs. -/
def pointsOfScan (stored : LaserScan ℝ) : List (Point32 ℝ) :=
  stored.points

/-- The element that ends up first when `val` is inserted into a sorted range
whose first element is `front`. -/
def newFront {α : Type} (comp : α → α → Bool) (front val : α) : α :=
  if comp val front then val else front

/-- Two points on one axis ray from the robot position: both on the horizontal
line through the robot and strictly on the same side of it, or both on the
vertical line through the robot and strictly on the same side of it. -/
def sameAxisRay {F : Type} [LinearOrderedField F] (s : mpCreator F) (p q : Point32 F) : Prop :=
  (p.y = s.y ∧ q.y = s.y ∧ 0 < (p.x - s.x) * (q.x - s.x)) ∨
  (p.x = s.x ∧ q.x = s.x ∧ 0 < (p.y - s.y) * (q.y - s.y))

/-- Seventeen different points straight ahead of the origin pose, on the
positive x axis. -/
def aheadPoints : List (Point32 ℝ) :=
  [⟨1, 0⟩, ⟨2, 0⟩, ⟨3, 0⟩, ⟨4, 0⟩, ⟨5, 0⟩, ⟨6, 0⟩, ⟨7, 0⟩, ⟨8, 0⟩, ⟨9, 0⟩, ⟨10, 0⟩,
    ⟨11, 0⟩, ⟨12, 0⟩, ⟨13, 0⟩, ⟨14, 0⟩, ⟨15, 0⟩, ⟨16, 0⟩, ⟨17, 0⟩]

/-- A number with a signed zero, as in IEEE 754 arithmetic: `val v` is the real
value `v`, with `val 0` the positive zero `+0.0`, and `negZero` is `-0.0`.  The
operations below are exact (no rounding, no overflow, no NaN); only the sign of
a zero result follows the IEEE rules. -/
inductive SignedNum (K : Type) where
  | val (v : K)
  | negZero
deriving DecidableEq

namespace SignedNum

variable {K : Type} [LinearOrderedField K]

/-- The real value of a number; both zeros have the value `0`. -/
def toVal : SignedNum K → K
  | val v => v
  | negZero => 0

/-- The sign bit: set for negative values and for `-0.0`. -/
def signBit : SignedNum K → Bool
  | val v => decide (v < 0)
  | negZero => true

/-- Multiplication: a zero product carries the exclusive or of the sign bits. -/
def mul (a b : SignedNum K) : SignedNum K :=
  if a.toVal * b.toVal = 0 then (if a.signBit != b.signBit then negZero else val 0)
  else val (a.toVal * b.toVal)

/-- Addition: a zero sum is `-0.0` only when both operands are `-0.0`. -/
def add (a b : SignedNum K) : SignedNum K :=
  if a.toVal + b.toVal = 0 then
    (match a, b with
      | negZero, negZero => negZero
      | _, _ => val 0)
  else val (a.toVal + b.toVal)

/-- Negation flips the sign, also of a zero. -/
def neg : SignedNum K → SignedNum K
  | val v => if v = 0 then negZero else val (-v)
  | negZero => val 0

/-- Subtraction `a - b` is `a + (-b)`. -/
def sub (a b : SignedNum K) : SignedNum K :=
  add a (neg b)

instance instMul : Mul (SignedNum K) := ⟨mul⟩

instance instAdd : Add (SignedNum K) := ⟨add⟩

instance instSub : Sub (SignedNum K) := ⟨sub⟩

instance instOfNat (n : Nat) : OfNat (SignedNum K) n := ⟨val (n : K)⟩

end SignedNum

/-- The `math.h` functions on numbers with a signed zero.  `atan2` follows
Annex F of the C standard on a zero first argument: `atan2(±0, x)` is `±π` when
`x` is negative or `-0`, and `±0` when `x` is positive or `+0`; otherwise it is
the argument of `x + i·y`.  `sqrt` keeps the sign of a zero. -/
noncomputable def signedMath : Math (SignedNum ℝ) where
  sqrt := fun a =>
    match a with
    | SignedNum.val v => SignedNum.val (Real.sqrt v)
    | SignedNum.negZero => SignedNum.negZero
  atan2 := fun y x =>
    if y.toVal = 0 then
      if x.signBit then
        (if y.signBit then SignedNum.val (-Real.pi) else SignedNum.val Real.pi)
      else (if y.signBit then SignedNum.negZero else SignedNum.val 0)
    else SignedNum.val (Complex.arg ⟨x.toVal, y.toVal⟩)
  M_PI := SignedNum.val Real.pi

/-- A state over the numbers with a signed zero: origin, heading `+0`. -/
def signedOrigin : mpCreator (SignedNum ℝ) :=
  { x := SignedNum.val 0, y := SignedNum.val 0, theta := SignedNum.val 0,
    xVel := SignedNum.val 0, yVel := SignedNum.val 0, angleWeight := SignedNum.val 1,
    scan := none }

end Auxiliary

/-! ## Facts about the sort model -/

section SortFacts

variable {α β : Type}

theorem ok_bind (a : α) (f : α → Except Fault β) : (Except.ok a >>= f) = f a := rfl

theorem error_bind (e : Fault) (f : α → Except Fault β) :
    ((Except.error e : Except Fault α) >>= f) = Except.error e := rfl

theorem readAt_of_lt (v : List α) (i : Nat) (h : i < v.length) :
    readAt v i = Except.ok (v.get ⟨i, h⟩) := by
  simp [readAt, List.getElem?_eq_getElem h]

theorem writeAt_of_lt (v : List α) (i : Nat) (a : α) (h : i < v.length) :
    writeAt v i a = Except.ok (v.set i a) := by
  simp [writeAt, h]

theorem iterSwap_of_lt (v : List α) (i j : Nat) (hi : i < v.length) (hj : j < v.length) :
    iterSwap v i j = Except.ok ((v.set i (v.get ⟨j, hj⟩)).set j (v.get ⟨i, hi⟩)) := by
  simp [iterSwap, readAt_of_lt v i hi, readAt_of_lt v j hj, ok_bind, writeAt, hi, hj]

/-- The median step swaps `v[result]` with one of the three candidates. -/
theorem moveMedianToFirst_eq (comp : α → α → Bool) (v : List α) (result a b c : Nat)
    (ha : a < v.length) (hb : b < v.length) (hc : c < v.length) :
    ∃ j, (j = a ∨ j = b ∨ j = c) ∧
      moveMedianToFirst comp v result a b c = iterSwap v result j := by
  simp only [moveMedianToFirst, readAt_of_lt v a ha, readAt_of_lt v b hb,
    readAt_of_lt v c hc, ok_bind]
  split
  · split
    · exact ⟨b, Or.inr (Or.inl rfl), rfl⟩
    · split
      · exact ⟨c, Or.inr (Or.inr rfl), rfl⟩
      · exact ⟨a, Or.inl rfl, rfl⟩
  · split
    · exact ⟨a, Or.inl rfl, rfl⟩
    · split
      · exact ⟨c, Or.inr (Or.inr rfl), rfl⟩
      · exact ⟨b, Or.inr (Or.inl rfl), rfl⟩

/-- The upward scan leaves the vector when every element passes the test. -/
theorem scanUp_error (comp : α → α → Bool) (pivot : α) (l : List α)
    (h : ∀ x ∈ l, comp x pivot = true) (first : Nat) :
    scanUp comp pivot l first = Except.error Fault.undefinedBehaviour := by
  induction l generalizing first with
  | nil => rfl
  | cons x above ih =>
    have hx : comp x pivot = true := h x (List.mem_cons_self x above)
    simp only [scanUp, hx, if_true]
    exact ih (fun y hy => h y (List.mem_cons_of_mem x hy)) (first + 1)

theorem unguardedPartition_error (comp : α → α → Bool) (pivot rounds : Nat) (v : List α)
    (first last : Nat) (p : α) (hp : readAt v pivot = Except.ok p)
    (h : ∀ x ∈ v.drop first, comp x p = true) :
    unguardedPartition comp pivot (rounds + 1) v first last
      = Except.error Fault.undefinedBehaviour := by
  simp only [unguardedPartition, hp, ok_bind, scanUp_error comp p _ h first, error_bind]

theorem mem_of_mem_set_set (v : List α) (i j : Nat) (a b x : α) (ha : a ∈ v) (hb : b ∈ v)
    (hx : x ∈ (v.set i a).set j b) : x ∈ v := by
  rcases List.mem_or_eq_of_mem_set hx with h | h
  · rcases List.mem_or_eq_of_mem_set h with h | h
    · exact h
    · rw [h]; exact ha
  · rw [h]; exact hb

theorem get_mem_tail (l : List α) (j : Nat) (hj : j < l.length) (h1 : 1 ≤ j) :
    l.get ⟨j, hj⟩ ∈ l.tail := by
  cases l with
  | nil => simp at hj
  | cons a t =>
    cases j with
    | zero => omega
    | succ k =>
      simp only [List.tail_cons, List.get_eq_getElem, List.getElem_cons_succ]
      exact List.getElem_mem _

theorem log2_pos_of_lt (n : Nat) (h : 16 < n) : ∃ d, Nat.log2 n * 2 = d + 1 := by
  have h1 : 1 ≤ Nat.log2 n := by
    rw [Nat.le_log2 (by omega)]
    omega
  exact ⟨Nat.log2 n * 2 - 1, by omega⟩

/-- On more than sixteen elements, when the comparator holds between every
element and every element after the first, the first upward scan of the
partition passes the end of the vector: the sort has no defined result. -/
theorem stdSort_undefined (comp : α → α → Bool) (l : List α) (hlen : 16 < l.length)
    (h : ∀ x ∈ l, ∀ y ∈ l.tail, comp x y = true) :
    stdSort comp l = Except.error Fault.undefinedBehaviour := by
  obtain ⟨d, hd⟩ := log2_pos_of_lt l.length hlen
  have hne : l.length ≠ 0 := by omega
  have h1 : 0 + 1 < l.length := by omega
  have hmid : 0 + (l.length - 0) / 2 < l.length := by omega
  have hlast : l.length - 1 < l.length := by omega
  have h0 : 0 < l.length := by omega
  obtain ⟨j, hj, hmed⟩ := moveMedianToFirst_eq comp l 0 (0 + 1) (0 + (l.length - 0) / 2)
    (l.length - 1) h1 hmid hlast
  have hjlt : j < l.length := by
    rcases hj with hj | hj | hj <;> omega
  have hj1 : 1 ≤ j := by
    rcases hj with hj | hj | hj <;> omega
  have hpart : unguardedPartitionPivot comp l 0 l.length
      = Except.error Fault.undefinedBehaviour := by
    simp only [unguardedPartitionPivot, hmed, iterSwap_of_lt l 0 j h0 hjlt, ok_bind]
    apply unguardedPartition_error comp 0 _ _ _ _ (l.get ⟨j, hjlt⟩)
    · have hlen0 : 0 < ((l.set 0 (l.get ⟨j, hjlt⟩)).set j (l.get ⟨0, h0⟩)).length := by
        simpa using h0
      rw [readAt_of_lt _ 0 hlen0]
      congr 1
      by_cases hj0 : j = 0
      · omega
      · simp [List.getElem_set, hj0]
    · intro x hx
      apply h x _ _ (get_mem_tail l j hjlt hj1)
      exact mem_of_mem_set_set l 0 j _ _ x (List.get_mem l j hjlt) (List.get_mem l 0 h0)
        (List.mem_of_mem_drop hx)
  simp only [stdSort, hne, if_false, hd, introsortLoop, Nat.sub_zero, hlen, if_true, hpart,
    error_bind]

theorem introsortLoop_small (comp : α → α → Bool) (depthLimit : Nat) (v : List α)
    (first last : Nat) (h : last - first ≤ 16) :
    introsortLoop comp depthLimit v first last = Except.ok v := by
  cases depthLimit <;> simp [introsortLoop, Nat.not_lt.mpr h]

/-- On at most sixteen elements `std::sort` is the insertion sort. -/
theorem stdSort_small (comp : α → α → Bool) (l : List α) (h : l.length ≤ 16) :
    stdSort comp l = insertionSort comp l := by
  cases l with
  | nil => rfl
  | cons a t =>
    have hn : ¬ (a :: t).length > 16 := Nat.not_lt.mpr h
    simp only [stdSort, List.length_cons, Nat.succ_ne_zero, if_false]
    rw [introsortLoop_small comp _ _ 0 _ (by simpa using h), ok_bind]
    simp only [finalInsertionSort, hn, if_false]

theorem unguardedLinearInsert_stop (comp : α → α → Bool) (val first : α)
    (h : comp val first = false) (l : List α) :
    ∃ l1, unguardedLinearInsert comp val (l ++ [first]) = Except.ok (l1 ++ [first]) := by
  induction l with
  | nil => exact ⟨[val], by simp [unguardedLinearInsert, h]⟩
  | cons next below ih =>
    obtain ⟨l1, h1⟩ := ih
    by_cases hc : comp val next = true
    · exact ⟨next :: l1, by simp [unguardedLinearInsert, hc, h1, Except.map]⟩
    · exact ⟨val :: next :: below, by simp [unguardedLinearInsert, hc]⟩

theorem insertionSortStep_front (comp : α → α → Bool) (first : α) (t : List α) (val : α) :
    ∃ t1, insertionSortStep comp (first :: t) val
      = Except.ok (newFront comp first val :: t1) := by
  by_cases hc : comp val first = true
  · exact ⟨first :: t, by simp [insertionSortStep, newFront, hc]⟩
  · have hf : comp val first = false := by simpa using hc
    obtain ⟨l1, h1⟩ := unguardedLinearInsert_stop comp val first hf t.reverse
    refine ⟨l1.reverse, ?_⟩
    simp [insertionSortStep, newFront, hf, h1, Except.map]

theorem foldlM_insertionSortStep_front (comp : α → α → Bool) (rest : List α) :
    ∀ (first : α) (t : List α),
      ∃ t1, rest.foldlM (insertionSortStep comp) (first :: t)
        = Except.ok (rest.foldl (newFront comp) first :: t1) := by
  induction rest with
  | nil => intro first t; exact ⟨t, rfl⟩
  | cons val rest ih =>
    intro first t
    obtain ⟨t1, h1⟩ := insertionSortStep_front comp first t val
    obtain ⟨t2, h2⟩ := ih (newFront comp first val) t1
    exact ⟨t2, by simp only [List.foldlM_cons, h1, ok_bind, h2, List.foldl_cons]⟩

/-- On a non-empty vector of at most sixteen elements, `objects[0]` after the
sort is the element obtained by running `newFront` over the input. -/
theorem index0_stdSort_cons (comp : α → α → Bool) (first : α) (rest : List α)
    (h : rest.length < 16) :
    (stdSort comp (first :: rest)).bind index0
      = Except.ok (rest.foldl (newFront comp) first) := by
  obtain ⟨t1, h1⟩ := foldlM_insertionSortStep_front comp rest first []
  rw [stdSort_small comp _ (by simp only [List.length_cons]; omega)]
  simp [insertionSort, h1, Except.bind, index0]

theorem index0_stdSort_nil (comp : α → α → Bool) :
    (stdSort comp ([] : List α)).bind index0 = Except.error Fault.undefinedBehaviour := by
  rfl

theorem bind_ne_exhausted (x : Except Fault α) (f : α → Except Fault β)
    (hx : x ≠ Except.error Fault.roundsExhausted)
    (hf : ∀ a, x = Except.ok a → f a ≠ Except.error Fault.roundsExhausted) :
    (x >>= f) ≠ Except.error Fault.roundsExhausted := by
  cases x with
  | error e =>
    intro h
    rw [error_bind] at h
    exact hx (congrArg Except.error (Except.error.inj h))
  | ok a => exact hf a rfl

theorem map_ne_exhausted (x : Except Fault α) (f : α → β)
    (hx : x ≠ Except.error Fault.roundsExhausted) :
    x.map f ≠ Except.error Fault.roundsExhausted := by
  cases x with
  | error e =>
    intro h
    exact hx (by simpa [Except.map] using h)
  | ok a => simp [Except.map]

theorem foldlM_ne_exhausted (f : β → α → Except Fault β)
    (hf : ∀ acc a, f acc a ≠ Except.error Fault.roundsExhausted) (l : List α) :
    ∀ init : β, l.foldlM f init ≠ Except.error Fault.roundsExhausted := by
  induction l with
  | nil =>
    intro init h
    exact Except.noConfusion h
  | cons a l ih =>
    intro init
    rw [List.foldlM_cons]
    exact bind_ne_exhausted _ _ (hf init a) (fun b _ => ih b)

theorem readAt_ne_exhausted (v : List α) (i : Nat) :
    readAt v i ≠ Except.error Fault.roundsExhausted := by
  unfold readAt
  split <;> simp

theorem writeAt_ne_exhausted (v : List α) (i : Nat) (a : α) :
    writeAt v i a ≠ Except.error Fault.roundsExhausted := by
  unfold writeAt
  split <;> simp

theorem writeAt_length (v v1 : List α) (i : Nat) (a : α) (h : writeAt v i a = Except.ok v1) :
    v1.length = v.length := by
  unfold writeAt at h
  split at h
  · rw [← Except.ok.inj h]; simp
  · exact Except.noConfusion h

theorem iterSwap_ne_exhausted (v : List α) (i j : Nat) :
    iterSwap v i j ≠ Except.error Fault.roundsExhausted := by
  unfold iterSwap
  refine bind_ne_exhausted _ _ (readAt_ne_exhausted v i) (fun a _ => ?_)
  refine bind_ne_exhausted _ _ (readAt_ne_exhausted v j) (fun b _ => ?_)
  refine bind_ne_exhausted _ _ (writeAt_ne_exhausted v i b) (fun v1 _ => ?_)
  exact writeAt_ne_exhausted v1 j a

theorem iterSwap_length (v v1 : List α) (i j : Nat) (h : iterSwap v i j = Except.ok v1) :
    v1.length = v.length := by
  unfold iterSwap at h
  cases ha : readAt v i with
  | error e => rw [ha] at h; exact Except.noConfusion h
  | ok a =>
    cases hb : readAt v j with
    | error e => rw [ha, hb] at h; exact Except.noConfusion h
    | ok b =>
      cases hw : writeAt v i b with
      | error e => rw [ha, hb] at h; simp only [ok_bind, hw] at h; exact Except.noConfusion h
      | ok v2 =>
        rw [ha, hb] at h
        simp only [ok_bind, hw] at h
        rw [writeAt_length v2 v1 j a h, writeAt_length v v2 i b hw]

theorem unguardedLinearInsert_ne_exhausted (comp : α → α → Bool) (val : α) (l : List α) :
    unguardedLinearInsert comp val l ≠ Except.error Fault.roundsExhausted := by
  induction l with
  | nil => simp [unguardedLinearInsert]
  | cons next below ih =>
    unfold unguardedLinearInsert
    split
    · exact map_ne_exhausted _ _ ih
    · simp

theorem insertionSortStep_ne_exhausted (comp : α → α → Bool) (sorted : List α) (val : α) :
    insertionSortStep comp sorted val ≠ Except.error Fault.roundsExhausted := by
  cases sorted with
  | nil => simp [insertionSortStep]
  | cons first t =>
    simp only [insertionSortStep]
    split
    · simp
    · exact map_ne_exhausted _ _ (unguardedLinearInsert_ne_exhausted comp val _)

theorem insertionSort_ne_exhausted (comp : α → α → Bool) (l : List α) :
    insertionSort comp l ≠ Except.error Fault.roundsExhausted := by
  cases l with
  | nil => simp [insertionSort]
  | cons first rest =>
    exact foldlM_ne_exhausted _ (insertionSortStep_ne_exhausted comp) rest [first]

theorem finalInsertionSort_ne_exhausted (comp : α → α → Bool) (v : List α) :
    finalInsertionSort comp v ≠ Except.error Fault.roundsExhausted := by
  unfold finalInsertionSort
  split
  · refine bind_ne_exhausted _ _ (insertionSort_ne_exhausted comp _) (fun sorted _ => ?_)
    exact foldlM_ne_exhausted _
      (fun acc val => map_ne_exhausted _ _ (unguardedLinearInsert_ne_exhausted comp val _)) _ _
  · exact insertionSort_ne_exhausted comp v

theorem moveMedianToFirst_ne_exhausted (comp : α → α → Bool) (v : List α)
    (result a b c : Nat) :
    moveMedianToFirst comp v result a b c ≠ Except.error Fault.roundsExhausted := by
  unfold moveMedianToFirst
  refine bind_ne_exhausted _ _ (readAt_ne_exhausted v a) (fun va _ => ?_)
  refine bind_ne_exhausted _ _ (readAt_ne_exhausted v b) (fun vb _ => ?_)
  refine bind_ne_exhausted _ _ (readAt_ne_exhausted v c) (fun vc _ => ?_)
  repeat' split
  all_goals exact iterSwap_ne_exhausted _ _ _

theorem scanUp_ne_exhausted (comp : α → α → Bool) (pivot : α) (l : List α) :
    ∀ first, scanUp comp pivot l first ≠ Except.error Fault.roundsExhausted := by
  induction l with
  | nil => intro first; simp [scanUp]
  | cons x above ih =>
    intro first
    unfold scanUp
    split
    · exact ih (first + 1)
    · simp

/-- A successful upward scan stops at an index inside the scanned range. -/
theorem scanUp_bounds (comp : α → α → Bool) (pivot : α) (l : List α) :
    ∀ first i, scanUp comp pivot l first = Except.ok i → first ≤ i ∧ i < first + l.length := by
  induction l with
  | nil =>
    intro first i h
    exact Except.noConfusion h
  | cons x above ih =>
    intro first i h
    unfold scanUp at h
    split at h
    · have := ih (first + 1) i h
      simp only [List.length_cons]
      omega
    · have hi : first = i := Except.ok.inj h
      simp only [List.length_cons]
      omega

theorem scanDown_ne_exhausted (comp : α → α → Bool) (v : List α) (pivot : α) :
    ∀ last, scanDown comp v pivot last ≠ Except.error Fault.roundsExhausted := by
  intro last
  induction last with
  | zero =>
    unfold scanDown
    refine bind_ne_exhausted _ _ (readAt_ne_exhausted v 0) (fun x _ => ?_)
    split <;> simp
  | succ last ih =>
    unfold scanDown
    refine bind_ne_exhausted _ _ (readAt_ne_exhausted v (last + 1)) (fun x _ => ?_)
    split
    · exact ih
    · simp

theorem unguardedPartition_ne_exhausted (comp : α → α → Bool) (pivot : Nat) :
    ∀ (rounds : Nat) (v : List α) (first last : Nat), v.length - first + 1 ≤ rounds →
      unguardedPartition comp pivot rounds v first last
        ≠ Except.error Fault.roundsExhausted := by
  intro rounds
  induction rounds with
  | zero =>
    intro v first last h
    omega
  | succ rounds ih =>
    intro v first last h
    unfold unguardedPartition
    refine bind_ne_exhausted _ _ (readAt_ne_exhausted v pivot) (fun p _ => ?_)
    refine bind_ne_exhausted _ _ (scanUp_ne_exhausted comp p _ first) (fun first1 h1 => ?_)
    have hb := scanUp_bounds comp p _ first first1 h1
    rw [List.length_drop] at hb
    split
    · simp
    · refine bind_ne_exhausted _ _ (scanDown_ne_exhausted comp v p _) (fun last1 _ => ?_)
      split
      · refine bind_ne_exhausted _ _ (iterSwap_ne_exhausted v first1 last1) (fun v1 hv1 => ?_)
        apply ih
        rw [iterSwap_length v v1 first1 last1 hv1]
        omega
      · simp

theorem unguardedPartitionPivot_ne_exhausted (comp : α → α → Bool) (v : List α)
    (first last : Nat) :
    unguardedPartitionPivot comp v first last ≠ Except.error Fault.roundsExhausted := by
  unfold unguardedPartitionPivot
  refine bind_ne_exhausted _ _ (moveMedianToFirst_ne_exhausted comp v _ _ _ _) (fun v1 _ => ?_)
  apply unguardedPartition_ne_exhausted
  omega

theorem pushHeap_ne_exhausted (comp : α → α → Bool) (first topIndex : Nat) (value : α) :
    ∀ (rounds : Nat) (v : List α) (holeIndex : Nat), holeIndex + 1 ≤ rounds →
      pushHeap comp first topIndex value rounds v holeIndex
        ≠ Except.error Fault.roundsExhausted := by
  intro rounds
  induction rounds with
  | zero =>
    intro v holeIndex h
    omega
  | succ rounds ih =>
    intro v holeIndex h
    unfold pushHeap
    simp only []
    split
    · refine bind_ne_exhausted _ _ (readAt_ne_exhausted v _) (fun vp _ => ?_)
      split
      · refine bind_ne_exhausted _ _ (writeAt_ne_exhausted v _ vp) (fun v1 _ => ?_)
        apply ih
        omega
      · exact writeAt_ne_exhausted _ _ _
    · exact writeAt_ne_exhausted _ _ _

theorem adjustHeapDown_ne_exhausted (comp : α → α → Bool) (first len : Nat) :
    ∀ (rounds : Nat) (v : List α) (holeIndex secondChild : Nat),
      len - secondChild + 1 ≤ rounds →
      adjustHeapDown comp first len rounds v holeIndex secondChild
        ≠ Except.error Fault.roundsExhausted := by
  intro rounds
  induction rounds with
  | zero =>
    intro v holeIndex secondChild h
    omega
  | succ rounds ih =>
    intro v holeIndex secondChild h
    unfold adjustHeapDown
    split
    · rename_i hsc
      refine bind_ne_exhausted _ _ (readAt_ne_exhausted v _) (fun x _ => ?_)
      refine bind_ne_exhausted _ _ (readAt_ne_exhausted v _) (fun y _ => ?_)
      simp only []
      refine bind_ne_exhausted _ _ (readAt_ne_exhausted v _) (fun z _ => ?_)
      refine bind_ne_exhausted _ _ (writeAt_ne_exhausted v _ z) (fun v1 _ => ?_)
      apply ih
      split <;> omega
    · simp

theorem adjustHeap_ne_exhausted (comp : α → α → Bool) (v : List α)
    (first holeIndex len : Nat) (value : α) :
    adjustHeap comp v first holeIndex len value ≠ Except.error Fault.roundsExhausted := by
  unfold adjustHeap
  simp only []
  refine bind_ne_exhausted _ _
    (adjustHeapDown_ne_exhausted comp first len _ v holeIndex holeIndex (by omega))
    (fun r _ => ?_)
  obtain ⟨v1, hole1, sc1⟩ := r
  simp only []
  split
  · refine bind_ne_exhausted _ _ (readAt_ne_exhausted v1 _) (fun z _ => ?_)
    refine bind_ne_exhausted _ _ (writeAt_ne_exhausted v1 _ z) (fun v2 _ => ?_)
    apply pushHeap_ne_exhausted
    omega
  · apply pushHeap_ne_exhausted
    omega

theorem popHeap_ne_exhausted (comp : α → α → Bool) (v : List α) (first last result : Nat) :
    popHeap comp v first last result ≠ Except.error Fault.roundsExhausted := by
  unfold popHeap
  refine bind_ne_exhausted _ _ (readAt_ne_exhausted v _) (fun value _ => ?_)
  refine bind_ne_exhausted _ _ (readAt_ne_exhausted v _) (fun top _ => ?_)
  refine bind_ne_exhausted _ _ (writeAt_ne_exhausted v _ top) (fun v1 _ => ?_)
  exact adjustHeap_ne_exhausted comp v1 first 0 _ value

theorem makeHeapLoop_ne_exhausted (comp : α → α → Bool) (first len : Nat) :
    ∀ (parent : Nat) (v : List α),
      makeHeapLoop comp first len parent v ≠ Except.error Fault.roundsExhausted := by
  intro parent
  induction parent with
  | zero =>
    intro v
    unfold makeHeapLoop
    refine bind_ne_exhausted _ _ (readAt_ne_exhausted v _) (fun value _ => ?_)
    exact adjustHeap_ne_exhausted comp v first 0 len value
  | succ parent ih =>
    intro v
    unfold makeHeapLoop
    refine bind_ne_exhausted _ _ (readAt_ne_exhausted v _) (fun value _ => ?_)
    refine bind_ne_exhausted _ _ (adjustHeap_ne_exhausted comp v first _ len value)
      (fun v1 _ => ?_)
    exact ih v1

theorem makeHeap_ne_exhausted (comp : α → α → Bool) (v : List α) (first last : Nat) :
    makeHeap comp v first last ≠ Except.error Fault.roundsExhausted := by
  unfold makeHeap
  split
  · simp
  · exact makeHeapLoop_ne_exhausted comp first _ _ v

theorem sortHeap_ne_exhausted (comp : α → α → Bool) (first : Nat) :
    ∀ (last : Nat) (v : List α),
      sortHeap comp first last v ≠ Except.error Fault.roundsExhausted := by
  intro last
  induction last with
  | zero => intro v; simp [sortHeap]
  | succ last ih =>
    intro v
    unfold sortHeap
    split
    · refine bind_ne_exhausted _ _ (popHeap_ne_exhausted comp v first last last)
        (fun v1 _ => ?_)
      exact ih v1
    · simp

theorem heapSelect_ne_exhausted (comp : α → α → Bool) (v : List α)
    (first middle last : Nat) :
    heapSelect comp v first middle last ≠ Except.error Fault.roundsExhausted := by
  unfold heapSelect
  refine bind_ne_exhausted _ _ (makeHeap_ne_exhausted comp v first middle) (fun v1 _ => ?_)
  apply foldlM_ne_exhausted
  intro acc i
  refine bind_ne_exhausted _ _ (readAt_ne_exhausted acc i) (fun x _ => ?_)
  refine bind_ne_exhausted _ _ (readAt_ne_exhausted acc first) (fun top _ => ?_)
  split
  · exact popHeap_ne_exhausted comp acc first middle i
  · simp

theorem partialSort_ne_exhausted (comp : α → α → Bool) (v : List α)
    (first middle last : Nat) :
    partialSort comp v first middle last ≠ Except.error Fault.roundsExhausted := by
  unfold partialSort
  refine bind_ne_exhausted _ _ (heapSelect_ne_exhausted comp v first middle last)
    (fun v1 _ => ?_)
  exact sortHeap_ne_exhausted comp first middle v1

theorem introsortLoop_ne_exhausted (comp : α → α → Bool) :
    ∀ (depthLimit : Nat) (v : List α) (first last : Nat),
      introsortLoop comp depthLimit v first last ≠ Except.error Fault.roundsExhausted := by
  intro depthLimit
  induction depthLimit with
  | zero =>
    intro v first last
    unfold introsortLoop
    split
    · exact partialSort_ne_exhausted comp v first last last
    · simp
  | succ depthLimit ih =>
    intro v first last
    unfold introsortLoop
    split
    · refine bind_ne_exhausted _ _ (unguardedPartitionPivot_ne_exhausted comp v first last)
        (fun r _ => ?_)
      obtain ⟨v1, cut⟩ := r
      simp only []
      refine bind_ne_exhausted _ _ (ih v1 cut last) (fun v2 _ => ?_)
      exact ih v2 first cut
    · simp

/-- The bounds on the rounds given to the loops of the model are never used up:
whenever the sort ends without a result, it is because of an access outside
the vector. -/
theorem stdSort_rounds_suffice (comp : α → α → Bool) (objects : List α) :
    stdSort comp objects ≠ Except.error Fault.roundsExhausted := by
  unfold stdSort
  split
  · simp
  · refine bind_ne_exhausted _ _ (introsortLoop_ne_exhausted comp _ objects 0 _)
      (fun v _ => ?_)
    exact finalInsertionSort_ne_exhausted comp v

end SortFacts

/-! ## Facts about exact arithmetic -/

section Exact

theorem realMath_atan2_zero_of_nonneg (x : ℝ) (hx : 0 ≤ x) : realMath.atan2 0 x = 0 := by
  show Complex.arg ((x : ℝ) : ℂ) = 0
  exact Complex.arg_ofReal_of_nonneg hx

theorem realMath_atan2_zero_of_neg (x : ℝ) (hx : x < 0) : realMath.atan2 0 x = Real.pi := by
  show Complex.arg ((x : ℝ) : ℂ) = Real.pi
  exact Complex.arg_ofReal_of_neg hx

theorem realMath_atan2_pos_zero (y : ℝ) (hy : 0 < y) : realMath.atan2 y 0 = Real.pi / 2 := by
  show Complex.arg ⟨0, y⟩ = Real.pi / 2
  have h : (⟨0, y⟩ : ℂ) = (y : ℂ) * Complex.I := by
    apply Complex.ext <;> simp
  rw [h, Complex.arg_real_mul _ hy, Complex.arg_I]

/-- At the origin with heading `0` and `angleWeight = 1`, a point on the
non-negative x axis has forward weight `0`. -/
theorem forwardWeight_ahead (vx vy : ℝ) (sc : Option (LaserScan ℝ)) (a : ℝ) (ha : 0 ≤ a) :
    forwardWeight realMath ⟨0, 0, 0, vx, vy, 1, sc⟩ ⟨a, 0⟩ = 0 := by
  simp [forwardWeight, distanceToPoint, angleToPoint, realMath_atan2_zero_of_nonneg a ha]
  simp [realMath]

/-- At the origin with heading `0` and `angleWeight = 1`, a point on the positive
y axis has forward weight `90`. -/
theorem forwardWeight_left (vx vy : ℝ) (sc : Option (LaserScan ℝ)) (b : ℝ) (hb : 0 < b) :
    forwardWeight realMath ⟨0, 0, 0, vx, vy, 1, sc⟩ ⟨0, b⟩ = 90 := by
  simp [forwardWeight, distanceToPoint, angleToPoint, realMath_atan2_pos_zero b hb]
  simp [realMath]
  field_simp
  ring

/-- At the origin with heading `0` and `angleWeight = 1`, a point on the
non-negative x axis has reverse weight `180`. -/
theorem reverseWeight_ahead (vx vy : ℝ) (sc : Option (LaserScan ℝ)) (a : ℝ) (ha : 0 ≤ a) :
    reverseWeight realMath ⟨0, 0, 0, vx, vy, 1, sc⟩ ⟨a, 0⟩ = 180 := by
  simp [reverseWeight, invAngleToPoint, distanceToPoint, angleToPoint,
    realMath_atan2_zero_of_nonneg a ha]
  simp [realMath]

/-- At the origin with heading `0` and `angleWeight = 1`, a point on the negative
x axis has reverse weight `0`. -/
theorem reverseWeight_behind (vx vy : ℝ) (sc : Option (LaserScan ℝ)) (a : ℝ) (ha : a < 0) :
    reverseWeight realMath ⟨0, 0, 0, vx, vy, 1, sc⟩ ⟨a, 0⟩ = 0 := by
  simp [reverseWeight, invAngleToPoint, distanceToPoint, angleToPoint,
    realMath_atan2_zero_of_neg a ha]
  simp [realMath]
  field_simp

theorem realMath_atan2_neg_zero (y : ℝ) (hy : y < 0) :
    realMath.atan2 y 0 = -(Real.pi / 2) := by
  show Complex.arg ⟨0, y⟩ = -(Real.pi / 2)
  have h : (⟨0, y⟩ : ℂ) = ((-y : ℝ) : ℂ) * (-Complex.I) := by
    apply Complex.ext <;> simp
  rw [h, Complex.arg_real_mul _ (by linarith), Complex.arg_neg_I]

/-- Over the reals `distanceToPoint` is the product of the absolute deltas. -/
theorem distanceToPoint_real (s : mpCreator ℝ) (p : Point32 ℝ) :
    distanceToPoint realMath s p = |p.x - s.x| * |p.y - s.y| := by
  show Real.sqrt ((p.x - s.x) ^ 2 * (p.y - s.y) ^ 2) = _
  rw [← mul_pow, Real.sqrt_sq_eq_abs, abs_mul]

/-- The product of the absolute deltas in polar form: the squared Euclidean
length times a factor that depends on the bearing only. -/
theorem abs_mul_abs_polar (x y : ℝ) :
    |x| * |y| = Real.sqrt (x ^ 2 + y ^ 2) ^ 2
      * |Real.cos (realMath.atan2 y x) * Real.sin (realMath.atan2 y x)| := by
  have hre : Complex.abs ⟨x, y⟩ * Real.cos (Complex.arg ⟨x, y⟩) = x :=
    Complex.abs_mul_cos_arg ⟨x, y⟩
  have him : Complex.abs ⟨x, y⟩ * Real.sin (Complex.arg ⟨x, y⟩) = y :=
    Complex.abs_mul_sin_arg ⟨x, y⟩
  have habs : Complex.abs ⟨x, y⟩ = Real.sqrt (x ^ 2 + y ^ 2) := by
    rw [Complex.abs_apply, Complex.normSq_mk]
    congr 1
    ring
  have hr : 0 ≤ Complex.abs ⟨x, y⟩ := Complex.abs.nonneg _
  show _ = _ * |Real.cos (Complex.arg ⟨x, y⟩) * Real.sin (Complex.arg ⟨x, y⟩)|
  rw [← habs]
  generalize Complex.abs ⟨x, y⟩ = r at hre him hr
  generalize Real.cos (Complex.arg ⟨x, y⟩) = c at hre
  generalize Real.sin (Complex.arg ⟨x, y⟩) = sn at him
  rw [← hre, ← him, abs_mul, abs_mul, abs_mul, abs_of_nonneg hr]
  ring

/-- The bearing along an axis depends only on the side of the robot. -/
theorem realMath_atan2_axis_x (a b : ℝ) (h : 0 < a * b) :
    realMath.atan2 0 a = realMath.atan2 0 b := by
  rcases lt_trichotomy a 0 with ha | ha | ha
  · have hb : b < 0 := by
      by_contra hb
      have : a * b ≤ 0 := mul_nonpos_of_nonpos_of_nonneg ha.le (not_lt.mp hb)
      linarith
    rw [realMath_atan2_zero_of_neg a ha, realMath_atan2_zero_of_neg b hb]
  · rw [ha] at h; simp at h
  · have hb : 0 < b := by
      by_contra hb
      have : a * b ≤ 0 := mul_nonpos_of_nonneg_of_nonpos ha.le (not_lt.mp hb)
      linarith
    rw [realMath_atan2_zero_of_nonneg a ha.le, realMath_atan2_zero_of_nonneg b hb.le]

theorem realMath_atan2_axis_y (a b : ℝ) (h : 0 < a * b) :
    realMath.atan2 a 0 = realMath.atan2 b 0 := by
  rcases lt_trichotomy a 0 with ha | ha | ha
  · have hb : b < 0 := by
      by_contra hb
      have : a * b ≤ 0 := mul_nonpos_of_nonpos_of_nonneg ha.le (not_lt.mp hb)
      linarith
    rw [realMath_atan2_neg_zero a ha, realMath_atan2_neg_zero b hb]
  · rw [ha] at h; simp at h
  · have hb : 0 < b := by
      by_contra hb
      have : a * b ≤ 0 := mul_nonpos_of_nonneg_of_nonpos ha.le (not_lt.mp hb)
      linarith
    rw [realMath_atan2_pos_zero a ha, realMath_atan2_pos_zero b hb]

/-- At the origin with heading `0` and `angleWeight = 1`, a point on the negative
y axis has forward weight `-90`. -/
theorem forwardWeight_right (vx vy : ℝ) (sc : Option (LaserScan ℝ)) (b : ℝ) (hb : b < 0) :
    forwardWeight realMath ⟨0, 0, 0, vx, vy, 1, sc⟩ ⟨0, b⟩ = -90 := by
  simp [forwardWeight, distanceToPoint, angleToPoint, realMath_atan2_neg_zero b hb]
  simp [realMath]
  field_simp
  ring

end Exact

/-! ## Facts about numbers with a signed zero -/

section SignedFacts

open SignedNum

theorem SignedNum.mul_def (a b : SignedNum ℝ) : a * b = SignedNum.mul a b := rfl

theorem SignedNum.add_def (a b : SignedNum ℝ) : a + b = SignedNum.add a b := rfl

theorem SignedNum.sub_def (a b : SignedNum ℝ) : a - b = SignedNum.sub a b := rfl

theorem SignedNum.two_def : (2 : SignedNum ℝ) = SignedNum.val 2 := by
  show SignedNum.val ((2 : ℕ) : ℝ) = SignedNum.val 2
  norm_num

/-- The product `0 * c` is a zero with the sign of `c`. -/
theorem SignedNum.zero_mul_val (c : ℝ) :
    (val 0 : SignedNum ℝ) * val c = if c < 0 then negZero else val 0 := by
  rw [SignedNum.mul_def]
  simp [SignedNum.mul, SignedNum.toVal, SignedNum.signBit]

/-- The first argument of `atan2` in `odomCallback` for a pure-yaw quaternion. -/
theorem SignedNum.yaw_first_arg (S C : ℝ) :
    (2 : SignedNum ℝ) * (val 0 * val C + val 0 * val S)
      = if S < 0 ∧ C < 0 then negZero else val 0 := by
  rw [SignedNum.zero_mul_val, SignedNum.zero_mul_val, SignedNum.two_def]
  by_cases hS : S < 0 <;> by_cases hC : C < 0 <;>
    simp [hS, hC, SignedNum.add_def, SignedNum.mul_def, SignedNum.add, SignedNum.mul,
      SignedNum.toVal, SignedNum.signBit]

theorem SignedNum.val_sub_sq (u c : ℝ) :
    (val u : SignedNum ℝ) - val c * val c = val (u - c * c) := by
  rw [SignedNum.mul_def, SignedNum.sub_def]
  by_cases hc : c = 0
  · subst hc
    by_cases hu : u = 0 <;>
      simp [hu, SignedNum.mul, SignedNum.sub, SignedNum.neg, SignedNum.add, SignedNum.toVal,
        SignedNum.signBit]
  · have hcc : c * c ≠ 0 := mul_ne_zero hc hc
    by_cases hu : u + -(c * c) = 0
    · have : u - c * c = 0 := by linarith
      simp [hc, hu, this, SignedNum.mul, SignedNum.sub, SignedNum.neg, SignedNum.add,
        SignedNum.toVal, SignedNum.signBit]
    · have : u - c * c ≠ 0 := by
        intro h; apply hu; linarith
      simp [hc, hu, SignedNum.mul, SignedNum.sub, SignedNum.neg, SignedNum.add,
        SignedNum.toVal, SignedNum.signBit, sub_eq_add_neg]

/-- The second argument of `atan2` in `odomCallback` for a unit pure-yaw
quaternion. -/
theorem SignedNum.yaw_second_arg (S C : ℝ) (h : S * S + C * C = 1) :
    (val 0 : SignedNum ℝ) * val 0 + val 0 * val 0 - val S * val S - val C * val C
      = val (-1) := by
  have h0 : (val 0 : SignedNum ℝ) * val 0 + val 0 * val 0 = val 0 := by
    rw [SignedNum.zero_mul_val]
    simp [SignedNum.add_def, SignedNum.add, SignedNum.toVal]
  rw [h0, SignedNum.val_sub_sq, SignedNum.val_sub_sq]
  congr 1
  linarith

/-- The heading that `odomCallback` stores for a pure-yaw quaternion. -/
theorem odomCallback_pure_yaw_theta (s : mpCreator (SignedNum ℝ)) (a : ℝ)
    (px py vx vy : SignedNum ℝ) :
    (odomCallback signedMath s
      ⟨px, py, ⟨val 0, val 0, val (Real.sin (a / 2)), val (Real.cos (a / 2))⟩, vx, vy⟩).theta
      = if Real.sin (a / 2) < 0 ∧ Real.cos (a / 2) < 0 then val (-Real.pi)
        else val Real.pi := by
  have hsc : Real.sin (a / 2) * Real.sin (a / 2) + Real.cos (a / 2) * Real.cos (a / 2) = 1 := by
    have := Real.sin_sq_add_cos_sq (a / 2)
    nlinarith [this]
  generalize Real.sin (a / 2) = S at hsc
  generalize Real.cos (a / 2) = C at hsc
  show signedMath.atan2 (2 * (val 0 * val C + val 0 * val S))
    (val 0 * val 0 + val 0 * val 0 - val S * val S - val C * val C) = _
  rw [SignedNum.yaw_first_arg, SignedNum.yaw_second_arg S C hsc]
  by_cases hb : S < 0 ∧ C < 0
  · simp [hb, signedMath, SignedNum.toVal, SignedNum.signBit]
  · simp [hb, signedMath, SignedNum.toVal, SignedNum.signBit]

/-- At `a = 7.5` the half angle lies between `π` and `3π/2`. -/
theorem sin_cos_neg_at_yaw : Real.sin (15 / 2 / 2) < 0 ∧ Real.cos (15 / 2 / 2) < 0 := by
  have h3 : (3 : ℝ) < Real.pi := Real.pi_gt_three
  have h4 : Real.pi < 3.15 := Real.pi_lt_d2
  constructor
  · have : Real.sin (15 / 2 / 2 - Real.pi) > 0 :=
      Real.sin_pos_of_pos_of_lt_pi (by norm_num at h4 ⊢; linarith) (by linarith)
    rw [Real.sin_sub_pi] at this
    linarith
  · apply Real.cos_neg_of_pi_div_two_lt_of_lt
    · norm_num at h4 ⊢; linarith
    · linarith

end SignedFacts

/-! ## Facts about the callbacks -/

section CallbackFacts

variable {F : Type} [Add F] [Sub F] [Mul F] [Div F] [HPow F ℕ F] [OfNat F 180] [LE F]
  [DecidableRel (fun a b : F => a ≤ b)]

theorem objSortComparator_eq (m : Math F) (s : mpCreator F) (a b : Point32 F) :
    objSortComparator m s a b = decide (forwardWeight m s a ≤ forwardWeight m s b) := rfl

theorem invObjSortComparator_eq (m : Math F) (s : mpCreator F) (a b : Point32 F) :
    invObjSortComparator m s a b = decide (reverseWeight m s a ≤ reverseWeight m s b) := rfl

/-- What `scanCallback` publishes for a non-empty list of at most sixteen
points. -/
theorem scanCallback_cons (m : Math F) (s : mpCreator F) (first : Point32 F)
    (rest : List (Point32 F)) (h : rest.length < 16) :
    (scanCallback m s ⟨first :: rest⟩).2
      = Except.ok (rest.foldl (newFront (objSortComparator m s)) first) := by
  simp only [scanCallback]
  rw [index0_stdSort_cons _ _ _ h]
  rfl

/-- What `robotPOSCallback` publishes when the stored scan projects to a
non-empty cloud of at most sixteen points. -/
theorem robotPOSCallback_cons (m : Math F) (projectLaser : LaserScan F → List (Point32 F))
    (s : mpCreator F) (stored : LaserScan F) (hs : s.scan = some stored)
    (first : Point32 F) (rest : List (Point32 F)) (hc : projectLaser stored = first :: rest)
    (h : rest.length < 16) :
    (robotPOSCallback m projectLaser s).2
      = Except.ok (rest.foldl (newFront (invObjSortComparator m s)) first) := by
  simp only [robotPOSCallback, hs, hc]
  rw [index0_stdSort_cons _ _ _ h]

/-- On more than sixteen points, when the comparator holds between every point
and every point after the first, `scanCallback` has no defined result. -/
theorem scanCallback_undefined (m : Math F) (s : mpCreator F) (inp : LaserScan F)
    (hlen : 16 < inp.points.length)
    (h : ∀ x ∈ inp.points, ∀ y ∈ inp.points.tail, objSortComparator m s x y = true) :
    (scanCallback m s inp).2 = Except.error Fault.undefinedBehaviour := by
  have hsort : stdSort (objSortComparator m { s with scan := some inp }) inp.points
      = Except.error Fault.undefinedBehaviour :=
    stdSort_undefined _ _ hlen h
  simp only [scanCallback, hsort]
  rfl

/-- On a cloud of more than sixteen points, when the comparator holds between
every point and every point after the first, `robotPOSCallback` has no defined
result. -/
theorem robotPOSCallback_undefined (m : Math F)
    (projectLaser : LaserScan F → List (Point32 F)) (s : mpCreator F) (stored : LaserScan F)
    (hs : s.scan = some stored) (hlen : 16 < (projectLaser stored).length)
    (h : ∀ x ∈ projectLaser stored, ∀ y ∈ (projectLaser stored).tail,
      invObjSortComparator m s x y = true) :
    (robotPOSCallback m projectLaser s).2 = Except.error Fault.undefinedBehaviour := by
  simp only [robotPOSCallback, hs, stdSort_undefined _ _ hlen h]
  rfl

end CallbackFacts

section TiedFacts

variable {F : Type} [LinearOrderedField F]

/-- More than sixteen copies of one point: the comparator holds between any two
of them, and `scanCallback` has no defined result. -/
theorem scanCallback_replicate_undefined (m : Math F) (s : mpCreator F) (p : Point32 F)
    (n : Nat) (hn : 16 < n) :
    (scanCallback m s ⟨List.replicate n p⟩).2 = Except.error Fault.undefinedBehaviour := by
  apply scanCallback_undefined
  · simpa using hn
  · intro x hx y hy
    rw [List.eq_of_mem_replicate hx, List.eq_of_mem_replicate (List.mem_of_mem_tail hy),
      objSortComparator_eq]
    exact decide_eq_true (le_refl _)

/-- More than sixteen copies of one point in the projected cloud:
`robotPOSCallback` has no defined result. -/
theorem robotPOSCallback_replicate_undefined (m : Math F)
    (projectLaser : LaserScan F → List (Point32 F)) (s : mpCreator F) (stored : LaserScan F)
    (hs : s.scan = some stored) (p : Point32 F) (n : Nat) (hn : 16 < n)
    (hc : projectLaser stored = List.replicate n p) :
    (robotPOSCallback m projectLaser s).2 = Except.error Fault.undefinedBehaviour := by
  apply robotPOSCallback_undefined m projectLaser s stored hs
  · rw [hc]; simpa using hn
  · intro x hx y hy
    rw [hc] at hx hy
    rw [List.eq_of_mem_replicate hx, List.eq_of_mem_replicate (List.mem_of_mem_tail hy),
      invObjSortComparator_eq]
    exact decide_eq_true (le_refl _)

end TiedFacts

/-! ## The claims -/

section Claims

variable {F : Type} [LinearOrderedField F]

/-- C1, the code at the failing input: at the origin pose the seventeen points
`(1,0), (2,0), ..., (17,0)` all have forward cost `0`, so every one of them has
minimal cost, and `scanCallback` publishes none of them: the partition of
`std::sort` scans past the end of the vector and the callback has no defined
result. -/
theorem scanCallback_tied_scan_undefined :
    aheadPoints.length = 17 ∧
    (∀ q ∈ aheadPoints, forwardWeight realMath originPose q = 0) ∧
    (scanCallback realMath originPose ⟨aheadPoints⟩).2
      = Except.error Fault.undefinedBehaviour := by
  have hw : ∀ q ∈ aheadPoints, forwardWeight realMath originPose q = 0 := by
    intro q hq
    have hq2 : ∃ a : ℝ, 0 ≤ a ∧ q = ⟨a, 0⟩ := by
      simp only [aheadPoints, List.mem_cons, List.mem_singleton, List.not_mem_nil,
        or_false] at hq
      rcases hq with h | h | h | h | h | h | h | h | h | h | h | h | h | h | h | h | h <;>
        exact ⟨_, by norm_num, h⟩
    obtain ⟨a, ha, rfl⟩ := hq2
    exact forwardWeight_ahead 0 0 none a ha
  refine ⟨rfl, hw, ?_⟩
  apply scanCallback_undefined
  · show 16 < aheadPoints.length
    decide
  · intro x hx y hy
    have hy2 : y ∈ aheadPoints := List.mem_of_mem_tail hy
    rw [objSortComparator_eq, hw x hx, hw y hy2]
    simp

/-- C2, the code at the failing input: on a scan of seventeen copies of the
point `(1,0)` at the origin pose, `scanCallback` has no defined result, so it
does not publish an element of the input. -/
theorem scanCallback_repeated_point_no_member :
    (scanCallback realMath originPose ⟨List.replicate 17 ⟨1, 0⟩⟩).2
      = Except.error Fault.undefinedBehaviour ∧
    ¬ ∃ r, (scanCallback realMath originPose ⟨List.replicate 17 ⟨1, 0⟩⟩).2 = Except.ok r ∧
      r ∈ List.replicate 17 (⟨1, 0⟩ : Point32 ℝ) := by
  have h : (scanCallback realMath originPose ⟨List.replicate 17 ⟨1, 0⟩⟩).2
      = Except.error Fault.undefinedBehaviour :=
    scanCallback_replicate_undefined realMath originPose ⟨1, 0⟩ 17 (by norm_num)
  refine ⟨h, ?_⟩
  rintro ⟨r, hr, _⟩
  rw [h] at hr
  exact Except.noConfusion hr

/-- C4, refuted as stated: on an empty point list neither the forward selection
nor the reverse selection ends with the error `EmptyPointSet`. -/
theorem empty_selection_counterexample :
    (scanCallback realMath originPose ⟨[]⟩).2 ≠ Except.error Fault.EmptyPointSet ∧
    (robotPOSCallback realMath pointsOfScan
      ⟨0, 0, 0, 0, 0, 1, some ⟨[]⟩⟩).2 ≠ Except.error Fault.EmptyPointSet := by
  constructor
  · simp [scanCallback, index0_stdSort_nil]
  · simp [robotPOSCallback, pointsOfScan, index0_stdSort_nil]

/-- C4, amended: on an empty point list the forward selection and the reverse
selection make no emptiness check and report no error; both evaluate
`objects[0]` on an empty vector, an access that has no defined result, for
every pose. -/
theorem empty_selection_undefined (m : Math F)
    (projectLaser : LaserScan F → List (Point32 F)) (s : mpCreator F)
    (inp stored : LaserScan F) (hi : inp.points = []) (hs : s.scan = some stored)
    (hc : projectLaser stored = []) :
    (scanCallback m s inp).2 = Except.error Fault.undefinedBehaviour ∧
    (robotPOSCallback m projectLaser s).2 = Except.error Fault.undefinedBehaviour := by
  constructor
  · simp [scanCallback, hi, index0_stdSort_nil]
  · simp [robotPOSCallback, hs, hc, index0_stdSort_nil]

/-- Witness for C4 (amended): the empty scan, with the empty scan stored. -/
theorem empty_selection_undefined_witness :
    (LaserScan.mk ([] : List (Point32 ℝ))).points = [] ∧
    (scanCallback realMath ⟨0, 0, 0, 0, 0, 1, some ⟨[]⟩⟩ ⟨[]⟩).2
      = Except.error Fault.undefinedBehaviour ∧
    (robotPOSCallback realMath pointsOfScan ⟨0, 0, 0, 0, 0, 1, some ⟨[]⟩⟩).2
      = Except.error Fault.undefinedBehaviour :=
  ⟨rfl, empty_selection_undefined realMath pointsOfScan ⟨0, 0, 0, 0, 0, 1, some ⟨[]⟩⟩
    ⟨[]⟩ ⟨[]⟩ rfl rfl rfl⟩

/-- C6, the code at the failing input: with a stored scan whose cloud is
seventeen copies of the point `(-1,0)`, at the origin pose, every point of the
cloud has the same reverse cost, whatever `invAngleToPoint` returns, and
`robotPOSCallback` has no defined result: it publishes no point of minimal
reverse cost. -/
theorem robotPOSCallback_repeated_point_undefined :
    (∀ q ∈ pointsOfScan ⟨List.replicate 17 ⟨-1, 0⟩⟩,
      reverseWeight realMath ⟨0, 0, 0, 0, 0, 1, some ⟨List.replicate 17 ⟨-1, 0⟩⟩⟩ q
        = reverseWeight realMath ⟨0, 0, 0, 0, 0, 1, some ⟨List.replicate 17 ⟨-1, 0⟩⟩⟩
          ⟨-1, 0⟩) ∧
    (robotPOSCallback realMath pointsOfScan
      ⟨0, 0, 0, 0, 0, 1, some ⟨List.replicate 17 ⟨-1, 0⟩⟩⟩).2
      = Except.error Fault.undefinedBehaviour := by
  constructor
  · intro q hq
    rw [List.eq_of_mem_replicate hq]
  · exact robotPOSCallback_replicate_undefined realMath pointsOfScan _
      ⟨List.replicate 17 ⟨-1, 0⟩⟩ rfl ⟨-1, 0⟩ 17 (by norm_num) rfl

/-- C7: at pose `x = 0, y = 0`, heading `0`, `angleWeight = 1` (any velocity, any
stored scan), `scanCallback` on the points `[(1,0), (0,5)]` publishes `(1,0)`, and
the forward cost of `(1,0)` is strictly less than the forward cost of `(0,5)`. -/
theorem forward_scenario (vx vy : ℝ) (sc : Option (LaserScan ℝ)) :
    (scanCallback realMath ⟨0, 0, 0, vx, vy, 1, sc⟩ ⟨[⟨1, 0⟩, ⟨0, 5⟩]⟩).2 = Except.ok ⟨1, 0⟩ ∧
    distanceToPoint realMath ⟨0, 0, 0, vx, vy, 1, sc⟩ ⟨1, 0⟩
        + 1 * angleToPoint realMath ⟨0, 0, 0, vx, vy, 1, sc⟩ ⟨1, 0⟩
      < distanceToPoint realMath ⟨0, 0, 0, vx, vy, 1, sc⟩ ⟨0, 5⟩
        + 1 * angleToPoint realMath ⟨0, 0, 0, vx, vy, 1, sc⟩ ⟨0, 5⟩ := by
  have h1 := forwardWeight_ahead vx vy sc 1 (by norm_num)
  have h2 := forwardWeight_left vx vy sc 5 (by norm_num)
  constructor
  · rw [scanCallback_cons _ _ _ _ (by simp)]
    simp [newFront, objSortComparator_eq, h1, h2]
  · simp only [forwardWeight] at h1 h2
    rw [h1, h2]
    norm_num

/-- C8: at pose `x = 0, y = 0`, heading `0`, `angleWeight = 1`, `robotPOSCallback`
on a stored scan whose cloud is `[(-1,0), (1,0)]` publishes `(-1,0)`, and the
reverse cost of `(-1,0)` is strictly less than the reverse cost of `(1,0)`. -/
theorem reverse_scenario (vx vy : ℝ) (stored : LaserScan ℝ)
    (projectLaser : LaserScan ℝ → List (Point32 ℝ))
    (hc : projectLaser stored = [⟨-1, 0⟩, ⟨1, 0⟩]) :
    (robotPOSCallback realMath projectLaser ⟨0, 0, 0, vx, vy, 1, some stored⟩).2
      = Except.ok ⟨-1, 0⟩ ∧
    distanceToPoint realMath ⟨0, 0, 0, vx, vy, 1, some stored⟩ ⟨-1, 0⟩
        + 1 * (180 - angleToPoint realMath ⟨0, 0, 0, vx, vy, 1, some stored⟩ ⟨-1, 0⟩)
      < distanceToPoint realMath ⟨0, 0, 0, vx, vy, 1, some stored⟩ ⟨1, 0⟩
        + 1 * (180 - angleToPoint realMath ⟨0, 0, 0, vx, vy, 1, some stored⟩ ⟨1, 0⟩) := by
  have h1 := reverseWeight_behind vx vy (some stored) (-1) (by norm_num)
  have h2 := reverseWeight_ahead vx vy (some stored) 1 (by norm_num)
  constructor
  · rw [robotPOSCallback_cons realMath projectLaser _ stored rfl _ _ hc (by simp)]
    simp [newFront, invObjSortComparator_eq, h1, h2]
  · simp only [reverseWeight, invAngleToPoint] at h1 h2
    rw [h1, h2]
    norm_num

/-- Witness for C8: the stored scan carries the two points itself. -/
theorem reverse_scenario_witness :
    pointsOfScan ⟨[⟨-1, 0⟩, ⟨1, 0⟩]⟩ = [⟨-1, 0⟩, ⟨1, 0⟩] ∧
    (robotPOSCallback realMath pointsOfScan
      ⟨0, 0, 0, 0, 0, 1, some ⟨[⟨-1, 0⟩, ⟨1, 0⟩]⟩⟩).2 = Except.ok ⟨-1, 0⟩ :=
  ⟨rfl, (reverse_scenario 0 0 ⟨[⟨-1, 0⟩, ⟨1, 0⟩]⟩ pointsOfScan rfl).1⟩

/-- C9: for every prior state and every pose update, after `odomCallback` the
stored pose is `x = px`, `y = py`, `xVel = vx`, `yVel = vy` and
`theta = atan2(2*(qx*qw + qy*qz), qx^2 + qy^2 - qz^2 - qw^2)`, the same for any
two prior states; and for the pure-yaw-90-degree quaternion
`(0, 0, sqrt(1/2), sqrt(1/2))` the stored heading is `atan2(0, -1)`. -/
theorem odomCallback_stores_pose :
    (∀ (F : Type) [LinearOrderedField F] (m : Math F) (s t : mpCreator F)
        (px py qx qy qz qw vx vy : F),
      (odomCallback m s ⟨px, py, ⟨qx, qy, qz, qw⟩, vx, vy⟩).x = px ∧
      (odomCallback m s ⟨px, py, ⟨qx, qy, qz, qw⟩, vx, vy⟩).y = py ∧
      (odomCallback m s ⟨px, py, ⟨qx, qy, qz, qw⟩, vx, vy⟩).xVel = vx ∧
      (odomCallback m s ⟨px, py, ⟨qx, qy, qz, qw⟩, vx, vy⟩).yVel = vy ∧
      (odomCallback m s ⟨px, py, ⟨qx, qy, qz, qw⟩, vx, vy⟩).theta
        = m.atan2 (2 * (qx * qw + qy * qz)) (qx ^ 2 + qy ^ 2 - qz ^ 2 - qw ^ 2) ∧
      (odomCallback m s ⟨px, py, ⟨qx, qy, qz, qw⟩, vx, vy⟩).x
        = (odomCallback m t ⟨px, py, ⟨qx, qy, qz, qw⟩, vx, vy⟩).x ∧
      (odomCallback m s ⟨px, py, ⟨qx, qy, qz, qw⟩, vx, vy⟩).y
        = (odomCallback m t ⟨px, py, ⟨qx, qy, qz, qw⟩, vx, vy⟩).y ∧
      (odomCallback m s ⟨px, py, ⟨qx, qy, qz, qw⟩, vx, vy⟩).theta
        = (odomCallback m t ⟨px, py, ⟨qx, qy, qz, qw⟩, vx, vy⟩).theta ∧
      (odomCallback m s ⟨px, py, ⟨qx, qy, qz, qw⟩, vx, vy⟩).xVel
        = (odomCallback m t ⟨px, py, ⟨qx, qy, qz, qw⟩, vx, vy⟩).xVel ∧
      (odomCallback m s ⟨px, py, ⟨qx, qy, qz, qw⟩, vx, vy⟩).yVel
        = (odomCallback m t ⟨px, py, ⟨qx, qy, qz, qw⟩, vx, vy⟩).yVel) ∧
    (∀ (s : mpCreator ℝ) (px py vx vy : ℝ),
      (odomCallback realMath s
        ⟨px, py, ⟨0, 0, Real.sqrt (1 / 2), Real.sqrt (1 / 2)⟩, vx, vy⟩).theta
        = realMath.atan2 0 (-1)) := by
  constructor
  · intro F _ m s t px py qx qy qz qw vx vy
    refine ⟨rfl, rfl, rfl, rfl, ?_, rfl, rfl, rfl, rfl, rfl⟩
    show m.atan2 (2 * (qx * qw + qy * qz)) (qx * qx + qy * qy - qz * qz - qw * qw) = _
    congr 1
    ring
  · intro s px py vx vy
    show realMath.atan2 (2 * (0 * Real.sqrt (1 / 2) + 0 * Real.sqrt (1 / 2)))
      (0 * 0 + 0 * 0 - Real.sqrt (1 / 2) * Real.sqrt (1 / 2)
        - Real.sqrt (1 / 2) * Real.sqrt (1 / 2)) = _
    have h : Real.sqrt (1 / 2) * Real.sqrt (1 / 2) = 1 / 2 :=
      Real.mul_self_sqrt (by norm_num)
    rw [h]
    congr 1 <;> norm_num

/-- C10: for every pose and point, `distanceToPoint(p)` is
`sqrt((p.x - x)^2 * (p.y - y)^2)`; over the reals this equals
`|p.x - x| * |p.y - y|`; and it is not the Euclidean norm: at the origin the
point `(1,0)` has `distanceToPoint` different from `sqrt((p.x - x)^2 + (p.y - y)^2)`. -/
theorem distanceToPoint_product_form :
    (∀ (F : Type) [LinearOrderedField F] (m : Math F) (s : mpCreator F) (p : Point32 F),
      distanceToPoint m s p = m.sqrt ((p.x - s.x) ^ 2 * (p.y - s.y) ^ 2)) ∧
    (∀ (s : mpCreator ℝ) (p : Point32 ℝ),
      distanceToPoint realMath s p = Real.sqrt ((p.x - s.x) ^ 2 * (p.y - s.y) ^ 2) ∧
      distanceToPoint realMath s p = |p.x - s.x| * |p.y - s.y|) ∧
    distanceToPoint realMath originPose ⟨1, 0⟩
      ≠ Real.sqrt (((1 : ℝ) - originPose.x) ^ 2 + ((0 : ℝ) - originPose.y) ^ 2) := by
  have habs : ∀ (s : mpCreator ℝ) (p : Point32 ℝ),
      distanceToPoint realMath s p = |p.x - s.x| * |p.y - s.y| := by
    intro s p
    show Real.sqrt ((p.x - s.x) ^ 2 * (p.y - s.y) ^ 2) = _
    rw [← mul_pow, Real.sqrt_sq_eq_abs, abs_mul]
  refine ⟨fun F _ m s p => rfl, fun s p => ⟨rfl, habs s p⟩, ?_⟩
  rw [habs]
  simp [originPose]

/-- C11, the code at the failing input: at the origin with heading `0` and
`angleWeight = 1` the points `a = (1,0)` (straight ahead) and `b = (0,-5)` (a
quarter turn to the side) have equal `distanceToPoint`, the bearing of `a`
deviates from the heading by the smaller absolute angle (`0` against `90`), and
yet the forward cost of `b` is strictly below the forward cost of `a`, and
`scanCallback` on `[a, b]` publishes `b`. -/
theorem heading_penalty_failing_input :
    distanceToPoint realMath originPose ⟨1, 0⟩ = distanceToPoint realMath originPose ⟨0, -5⟩ ∧
    |angleToPoint realMath originPose ⟨1, 0⟩| < |angleToPoint realMath originPose ⟨0, -5⟩| ∧
    forwardWeight realMath originPose ⟨0, -5⟩ < forwardWeight realMath originPose ⟨1, 0⟩ ∧
    (scanCallback realMath originPose ⟨[⟨1, 0⟩, ⟨0, -5⟩]⟩).2 = Except.ok ⟨0, -5⟩ := by
  have hd1 : distanceToPoint realMath originPose ⟨1, 0⟩ = 0 := by
    rw [distanceToPoint_real]; simp [originPose]
  have hd2 : distanceToPoint realMath originPose ⟨0, -5⟩ = 0 := by
    rw [distanceToPoint_real]; simp [originPose]
  have h1 : forwardWeight realMath originPose ⟨1, 0⟩ = 0 :=
    forwardWeight_ahead 0 0 none 1 (by norm_num)
  have h2 : forwardWeight realMath originPose ⟨0, -5⟩ = -90 :=
    forwardWeight_right 0 0 none (-5) (by norm_num)
  have ha1 : angleToPoint realMath originPose ⟨1, 0⟩ = 0 := by
    have h := h1
    simp only [forwardWeight, hd1] at h
    simpa [originPose] using h
  have ha2 : angleToPoint realMath originPose ⟨0, -5⟩ = -90 := by
    have h := h2
    simp only [forwardWeight, hd2] at h
    simpa [originPose] using h
  refine ⟨by rw [hd1, hd2], ?_, ?_, ?_⟩
  · rw [ha1, ha2]; norm_num
  · rw [h1, h2]; norm_num
  · rw [scanCallback_cons _ _ _ _ (by simp)]
    simp [newFront, objSortComparator_eq, h1, h2]

/-- C13: for every pose and every angleWeight (positive or not), if two points
`p`, `q` have the same bearing from the robot position and `q` is at a greater
Euclidean distance from the robot than `p`, then they have the same
`angleToPoint` and the forward cost of `q` is at least the forward cost of
`p`. -/
theorem forward_cost_monotone_on_ray (s : mpCreator ℝ) (p q : Point32 ℝ)
    (hbearing : realMath.atan2 (p.y - s.y) (p.x - s.x)
      = realMath.atan2 (q.y - s.y) (q.x - s.x))
    (hfar : Real.sqrt ((p.x - s.x) ^ 2 + (p.y - s.y) ^ 2)
      < Real.sqrt ((q.x - s.x) ^ 2 + (q.y - s.y) ^ 2)) :
    angleToPoint realMath s p = angleToPoint realMath s q ∧
    distanceToPoint realMath s p + s.angleWeight * angleToPoint realMath s p
      ≤ distanceToPoint realMath s q + s.angleWeight * angleToPoint realMath s q := by
  have hang : angleToPoint realMath s p = angleToPoint realMath s q := by
    simp only [angleToPoint, hbearing]
  refine ⟨hang, ?_⟩
  rw [hang]
  have hdist : distanceToPoint realMath s p ≤ distanceToPoint realMath s q := by
    rw [distanceToPoint_real, distanceToPoint_real, abs_mul_abs_polar, abs_mul_abs_polar,
      hbearing]
    apply mul_le_mul_of_nonneg_right _ (abs_nonneg _)
    exact pow_le_pow_left₀ (Real.sqrt_nonneg _) hfar.le 2
  linarith

/-- Witness for C13: the points `(1,1)` and `(2,2)` seen from the origin pose. -/
theorem forward_cost_monotone_on_ray_witness :
    angleToPoint realMath originPose ⟨1, 1⟩ = angleToPoint realMath originPose ⟨2, 2⟩ ∧
    distanceToPoint realMath originPose ⟨1, 1⟩
        + originPose.angleWeight * angleToPoint realMath originPose ⟨1, 1⟩
      ≤ distanceToPoint realMath originPose ⟨2, 2⟩
        + originPose.angleWeight * angleToPoint realMath originPose ⟨2, 2⟩ :=
  forward_cost_monotone_on_ray originPose ⟨1, 1⟩ ⟨2, 2⟩
    (by
      show Complex.arg ⟨1 - 0, 1 - 0⟩ = Complex.arg ⟨2 - 0, 2 - 0⟩
      have h : (⟨2 - 0, 2 - 0⟩ : ℂ) = ((2 : ℝ) : ℂ) * ⟨1 - 0, 1 - 0⟩ := by
        apply Complex.ext <;> simp
      rw [h, Complex.arg_real_mul _ (by norm_num)])
    (by
      apply Real.sqrt_lt_sqrt
      · positivity
      · simp [originPose]; norm_num)

/-- C14, the code at the failing input: on a scan of seventeen copies of the
point `(1,0)`, two states with the same pose `(0, 0, 0)` and `angleWeight = 1`
(and different velocities and stored scans) both end without a defined result:
there is no point that the two runs both publish. -/
theorem selection_no_common_point :
    (scanCallback realMath ⟨0, 0, 0, 1, 2, 1, none⟩ ⟨List.replicate 17 ⟨1, 0⟩⟩).2
      = Except.error Fault.undefinedBehaviour ∧
    (scanCallback realMath ⟨0, 0, 0, 3, 4, 1, some ⟨[⟨7, 7⟩]⟩⟩ ⟨List.replicate 17 ⟨1, 0⟩⟩).2
      = Except.error Fault.undefinedBehaviour ∧
    ¬ ∃ r,
      (scanCallback realMath ⟨0, 0, 0, 1, 2, 1, none⟩ ⟨List.replicate 17 ⟨1, 0⟩⟩).2
        = Except.ok r ∧
      (scanCallback realMath ⟨0, 0, 0, 3, 4, 1, some ⟨[⟨7, 7⟩]⟩⟩
        ⟨List.replicate 17 ⟨1, 0⟩⟩).2 = Except.ok r := by
  have h1 := scanCallback_replicate_undefined realMath ⟨0, 0, 0, 1, 2, 1, none⟩
    ⟨1, 0⟩ 17 (by norm_num)
  have h2 := scanCallback_replicate_undefined realMath ⟨0, 0, 0, 3, 4, 1, some ⟨[⟨7, 7⟩]⟩⟩
    ⟨1, 0⟩ 17 (by norm_num)
  refine ⟨h1, h2, ?_⟩
  rintro ⟨r, hr, _⟩
  rw [h1] at hr
  exact Except.noConfusion hr

/-- C15: for every pose, angleWeight and point `a`, `objSortComparator(a, a)` and
`invObjSortComparator(a, a)` return true; for two points of equal cost the
comparator returns true in both argument orders; hence neither comparator is
irreflexive and neither is asymmetric, as a strict weak ordering would be. -/
theorem comparators_not_strict (m : Math F) (s : mpCreator F) :
    (∀ a, objSortComparator m s a a = true ∧ invObjSortComparator m s a a = true) ∧
    (∀ a b, forwardWeight m s a = forwardWeight m s b →
      objSortComparator m s a b = true ∧ objSortComparator m s b a = true) ∧
    (∀ a b, reverseWeight m s a = reverseWeight m s b →
      invObjSortComparator m s a b = true ∧ invObjSortComparator m s b a = true) ∧
    ¬ (∀ a, objSortComparator m s a a = false) ∧
    ¬ (∀ a, invObjSortComparator m s a a = false) ∧
    ¬ (∀ a b, objSortComparator m s a b = true → objSortComparator m s b a = false) ∧
    ¬ (∀ a b, invObjSortComparator m s a b = true → invObjSortComparator m s b a = false) := by
  have hf : ∀ a, objSortComparator m s a a = true := by
    intro a
    rw [objSortComparator_eq]
    exact decide_eq_true (le_refl _)
  have hi : ∀ a, invObjSortComparator m s a a = true := by
    intro a
    rw [invObjSortComparator_eq]
    exact decide_eq_true (le_refl _)
  refine ⟨fun a => ⟨hf a, hi a⟩, ?_, ?_, ?_, ?_, ?_, ?_⟩
  · intro a b h
    rw [objSortComparator_eq, objSortComparator_eq]
    exact ⟨decide_eq_true (le_of_eq h), decide_eq_true (le_of_eq h.symm)⟩
  · intro a b h
    rw [invObjSortComparator_eq, invObjSortComparator_eq]
    exact ⟨decide_eq_true (le_of_eq h), decide_eq_true (le_of_eq h.symm)⟩
  · intro h
    have := h ⟨0, 0⟩
    rw [hf] at this
    exact Bool.noConfusion this
  · intro h
    have := h ⟨0, 0⟩
    rw [hi] at this
    exact Bool.noConfusion this
  · intro h
    have := h ⟨0, 0⟩ ⟨0, 0⟩ (hf _)
    rw [hf] at this
    exact Bool.noConfusion this
  · intro h
    have := h ⟨0, 0⟩ ⟨0, 0⟩ (hi _)
    rw [hi] at this
    exact Bool.noConfusion this

/-- Witness for C15: at the origin pose the different points `(1,0)` and `(2,0)`
have equal forward cost, and the comparator returns true in both orders. -/
theorem comparators_not_strict_witness :
    forwardWeight realMath originPose ⟨1, 0⟩ = forwardWeight realMath originPose ⟨2, 0⟩ ∧
    objSortComparator realMath originPose ⟨1, 0⟩ ⟨2, 0⟩ = true ∧
    objSortComparator realMath originPose ⟨2, 0⟩ ⟨1, 0⟩ = true :=
  have h : forwardWeight realMath originPose ⟨1, 0⟩
      = forwardWeight realMath originPose ⟨2, 0⟩ := by
    rw [show originPose = (⟨0, 0, 0, 0, 0, 1, none⟩ : mpCreator ℝ) from rfl,
      forwardWeight_ahead 0 0 none 1 (by norm_num),
      forwardWeight_ahead 0 0 none 2 (by norm_num)]
  ⟨h, (comparators_not_strict realMath originPose).2.1 ⟨1, 0⟩ ⟨2, 0⟩ h⟩

/-- C16, refuted as stated: with signed zeros, the pure-yaw quaternion of the
angle `a = 7.5` (where `sin(a/2)` and `cos(a/2)` are both negative) stores
`theta = -π`, which differs from `atan2(+0, -1) = π`. -/
theorem pure_yaw_heading_counterexample :
    (odomCallback signedMath signedOrigin
      ⟨SignedNum.val 0, SignedNum.val 0,
        ⟨SignedNum.val 0, SignedNum.val 0, SignedNum.val (Real.sin (15 / 2 / 2)),
          SignedNum.val (Real.cos (15 / 2 / 2))⟩,
        SignedNum.val 0, SignedNum.val 0⟩).theta = SignedNum.val (-Real.pi) ∧
    signedMath.atan2 (SignedNum.val 0) (SignedNum.val (-1)) = SignedNum.val Real.pi ∧
    (SignedNum.val (-Real.pi) : SignedNum ℝ) ≠ SignedNum.val Real.pi := by
  refine ⟨?_, ?_, ?_⟩
  · rw [odomCallback_pure_yaw_theta, if_pos sin_cos_neg_at_yaw]
  · simp [signedMath, SignedNum.toVal, SignedNum.signBit]
  · intro h
    have h2 : -Real.pi = Real.pi := SignedNum.val.inj h
    linarith [Real.pi_pos]

/-- C16, amended: for every angle `a`, a pose update whose quaternion is the
pure-yaw quaternion `(0, 0, sin(a/2), cos(a/2))` stores a heading of magnitude
`π` whatever `a` is: `theta = -π` when `sin(a/2)` and `cos(a/2)` are both
negative (the first argument of `atan2` is then `-0`), and `theta = π`
otherwise. -/
theorem odomCallback_pure_yaw_heading (s : mpCreator (SignedNum ℝ)) (a : ℝ)
    (px py vx vy : SignedNum ℝ) :
    (odomCallback signedMath s
      ⟨px, py, ⟨SignedNum.val 0, SignedNum.val 0, SignedNum.val (Real.sin (a / 2)),
        SignedNum.val (Real.cos (a / 2))⟩, vx, vy⟩).theta
      = (if Real.sin (a / 2) < 0 ∧ Real.cos (a / 2) < 0 then SignedNum.val (-Real.pi)
          else SignedNum.val Real.pi) ∧
    ((odomCallback signedMath s
        ⟨px, py, ⟨SignedNum.val 0, SignedNum.val 0, SignedNum.val (Real.sin (a / 2)),
          SignedNum.val (Real.cos (a / 2))⟩, vx, vy⟩).theta = SignedNum.val (-Real.pi) ∨
      (odomCallback signedMath s
        ⟨px, py, ⟨SignedNum.val 0, SignedNum.val 0, SignedNum.val (Real.sin (a / 2)),
          SignedNum.val (Real.cos (a / 2))⟩, vx, vy⟩).theta = SignedNum.val Real.pi) := by
  refine ⟨odomCallback_pure_yaw_theta s a px py vx vy, ?_⟩
  rw [odomCallback_pure_yaw_theta]
  by_cases h : Real.sin (a / 2) < 0 ∧ Real.cos (a / 2) < 0
  · exact Or.inl (if_pos h)
  · exact Or.inr (if_neg h)

/-- C17: for every pose and every point `p` with `p.x = x` or `p.y = y`,
`distanceToPoint(p) = 0`, so the forward cost of `p` is
`angleWeight * angleToPoint(p)`, and every point `q` on the same axis ray as `p`
has the same forward cost as `p`. -/
theorem distanceToPoint_zero_on_axes (s : mpCreator ℝ) (p : Point32 ℝ)
    (hp : p.x = s.x ∨ p.y = s.y) :
    distanceToPoint realMath s p = 0 ∧
    distanceToPoint realMath s p + s.angleWeight * angleToPoint realMath s p
      = s.angleWeight * angleToPoint realMath s p ∧
    ∀ q, sameAxisRay s p q →
      distanceToPoint realMath s q + s.angleWeight * angleToPoint realMath s q
        = distanceToPoint realMath s p + s.angleWeight * angleToPoint realMath s p := by
  have hzero : ∀ r : Point32 ℝ, r.x = s.x ∨ r.y = s.y → distanceToPoint realMath s r = 0 := by
    intro r hr
    rw [distanceToPoint_real]
    rcases hr with h | h <;> simp [h]
  refine ⟨hzero p hp, by rw [hzero p hp, zero_add], ?_⟩
  intro q hq
  rcases hq with ⟨hpy, hqy, hside⟩ | ⟨hpx, hqx, hside⟩
  · rw [hzero p (Or.inr hpy), hzero q (Or.inr hqy)]
    simp only [angleToPoint, hpy, hqy, sub_self]
    rw [realMath_atan2_axis_x _ _ hside]
  · rw [hzero p (Or.inl hpx), hzero q (Or.inl hqx)]
    simp only [angleToPoint, hpx, hqx, sub_self]
    rw [realMath_atan2_axis_y _ _ hside]

/-- Witness for C17: the points `(3,0)` and `(7,0)` seen from the origin pose. -/
theorem distanceToPoint_zero_on_axes_witness :
    distanceToPoint realMath originPose ⟨3, 0⟩ = 0 ∧
    distanceToPoint realMath originPose ⟨7, 0⟩
        + originPose.angleWeight * angleToPoint realMath originPose ⟨7, 0⟩
      = distanceToPoint realMath originPose ⟨3, 0⟩
        + originPose.angleWeight * angleToPoint realMath originPose ⟨3, 0⟩ :=
  ⟨(distanceToPoint_zero_on_axes originPose ⟨3, 0⟩ (Or.inr rfl)).1,
    (distanceToPoint_zero_on_axes originPose ⟨3, 0⟩ (Or.inr rfl)).2.2 ⟨7, 0⟩
      (Or.inl ⟨rfl, rfl, by simp [originPose]⟩)⟩

end Claims

end MotionPath
